import Mathlib

/-!
Verification of the columnar database engine against its specification.

The definitions below are a shallow embedding of the Rust sources:
`src/compress.rs` (codecs), `src/lib.rs` (serializer), `src/query.rs`
(expressions and type checking), `src/planner.rs` (flattening and select
planning), `src/executor.rs` (plan execution, mask filtering, CSV copy)
and `src/metastore.rs` (catalog operations).

Machine integers are modelled as `Int` with explicit two's-complement
wrapping where the Rust arithmetic wraps; byte buffers are `List Nat`
(each entry one byte); Rust `String` payloads are modelled as their
UTF-8 byte sequences (`List Nat`), which makes Rust's byte-wise string
ordering and byte-length bookkeeping exact.  Fallible Rust functions
returning `Result` become `Except`.
-/

deriving instance DecidableEq for Except

namespace Isdb

/-! ## Integer model -/

/-- The signed 64-bit integer range. -/
def isI64 (x : Int) : Prop := -(2 ^ 63) ≤ x ∧ x < 2 ^ 63

instance (x : Int) : Decidable (isI64 x) := by
  unfold isI64; infer_instance

/-- Two's-complement wrapping into the i64 range, the semantics of Rust's
release-mode integer arithmetic. -/
def wrap64 (x : Int) : Int := ((x + 2 ^ 63) % 2 ^ 64) - 2 ^ 63

theorem wrap64_eq_self {x : Int} (h : isI64 x) : wrap64 x = x := by
  rcases h with ⟨h1, h2⟩
  unfold wrap64
  omega

theorem wrap64_isI64 (x : Int) : isI64 (wrap64 x) := by
  unfold wrap64 isI64
  omega

theorem wrap64_add_left (a b : Int) : wrap64 (wrap64 a + b) = wrap64 (a + b) := by
  unfold wrap64
  omega

/-! ## Little-endian byte encoding (`i64::to_le_bytes` / `from_le_bytes`) -/

/-- Little-endian base-256 digits, fixed width. -/
def toLeBytes : Nat → Nat → List Nat
  | 0, _ => []
  | w + 1, n => n % 256 :: toLeBytes w (n / 256)

/-- Recompose a little-endian byte list into a natural number. -/
def fromLeBytesNat : List Nat → Nat
  | [] => 0
  | b :: rest => b + 256 * fromLeBytesNat rest

theorem toLeBytes_length (w n : Nat) : (toLeBytes w n).length = w := by
  induction w generalizing n with
  | zero => rfl
  | succ w ih => simp [toLeBytes, ih]

/-- `i64` → 8 little-endian bytes (two's complement). -/
def i64ToLeBytes (x : Int) : List Nat := toLeBytes 8 (x % 2 ^ 64).toNat

/-- 8 little-endian bytes → `i64` (two's complement). -/
def i64FromLeBytes (bs : List Nat) : Int :=
  let n := fromLeBytesNat bs
  if n < 2 ^ 63 then (n : Int) else (n : Int) - 2 ^ 64

theorem fromLeBytes_toLeBytes_8 {n : Nat} (h : n < 2 ^ 64) :
    fromLeBytesNat (toLeBytes 8 n) = n := by
  simp only [toLeBytes, fromLeBytesNat]
  omega

theorem fromLeBytes_toLeBytes_4 {n : Nat} (h : n < 2 ^ 32) :
    fromLeBytesNat (toLeBytes 4 n) = n := by
  simp only [toLeBytes, fromLeBytesNat]
  omega

theorem i64_le_roundtrip {x : Int} (h : isI64 x) :
    i64FromLeBytes (i64ToLeBytes x) = x := by
  rcases h with ⟨h1, h2⟩
  unfold i64ToLeBytes i64FromLeBytes
  rw [fromLeBytes_toLeBytes_8 (by omega)]
  simp only []
  omega

/-! ## Zig-zag + LEB128 varint (model of the `integer_encoding` crate used
by `VleDeltaIntCompressor`; the spec describes it as "signed zig-zag varint
(LEB128-style with the sign bit interleaved into the low bit)"). -/

def zigzagEncode (x : Int) : Nat :=
  if 0 ≤ x then (2 * x).toNat else (2 * (-x) - 1).toNat

def zigzagDecode (z : Nat) : Int :=
  if z % 2 = 0 then ((z / 2 : Nat) : Int) else -(((z / 2 : Nat) : Int) + 1)

theorem zigzag_roundtrip (x : Int) : zigzagDecode (zigzagEncode x) = x := by
  rcases le_or_lt 0 x with h | h
  · simp only [zigzagEncode, zigzagDecode, if_pos h]
    split <;> omega
  · simp only [zigzagEncode, zigzagDecode, if_neg (not_le.mpr h)]
    split <;> omega

/-- One unsigned LEB128 varint, low 7 bits first, high bit marks continuation. -/
def encodeVarint (n : Nat) : List Nat :=
  if n < 128 then [n] else (n % 128 + 128) :: encodeVarint (n / 128)
termination_by n
decreasing_by
  exact Nat.div_lt_self (by omega) (by omega)

/-- Decode one varint from the head of a byte stream, returning the value and
the number of bytes consumed (`i64::decode_var`'s contract). -/
def decodeVarint : List Nat → Option (Nat × Nat)
  | [] => none
  | b :: rest =>
    if b < 128 then some (b, 1)
    else
      match decodeVarint rest with
      | none => none
      | some (v, k) => some (b % 128 + 128 * v, k + 1)

theorem encodeVarint_ne_nil (n : Nat) : encodeVarint n ≠ [] := by
  unfold encodeVarint
  split <;> simp

theorem decodeVarint_consumed {l : List Nat} {v k : Nat}
    (h : decodeVarint l = some (v, k)) : 1 ≤ k ∧ k ≤ l.length := by
  induction l generalizing v k with
  | nil => simp [decodeVarint] at h
  | cons b rest ih =>
    simp only [decodeVarint] at h
    by_cases hb : b < 128
    · rw [if_pos hb] at h
      simp only [Option.some.injEq, Prod.mk.injEq] at h
      obtain ⟨-, h2⟩ := h
      simp only [List.length_cons]
      omega
    · rw [if_neg hb] at h
      cases hrec : decodeVarint rest with
      | none => rw [hrec] at h; exact absurd h (by simp)
      | some p =>
        obtain ⟨v', k'⟩ := p
        rw [hrec] at h
        simp only [Option.some.injEq, Prod.mk.injEq] at h
        obtain ⟨-, h2⟩ := h
        have := ih hrec
        simp only [List.length_cons]
        omega

theorem decodeVarint_encodeVarint (n : Nat) (rest : List Nat) :
    decodeVarint (encodeVarint n ++ rest) = some (n, (encodeVarint n).length) := by
  induction n using Nat.strong_induction_on with
  | _ n ih =>
    by_cases h : n < 128
    · rw [encodeVarint, if_pos h]
      simp [decodeVarint, h]
    · rw [encodeVarint, if_neg h]
      simp only [List.cons_append, decodeVarint, List.length_cons]
      rw [if_neg (by omega)]
      rw [show (encodeVarint (n / 128)).append rest = encodeVarint (n / 128) ++ rest from rfl]
      rw [ih (n / 128) (Nat.div_lt_self (by omega) (by omega))]
      simp only [Option.some.injEq, Prod.mk.injEq]
      exact ⟨by omega, trivial⟩

/-! ## Codec error type (`CompressorError` in `src/compress.rs`) -/

inductive CompressorError where
  | lz4Decompression (msg : String)
  | utf8Decoding (msg : String)
  | vleDecoding (msg : String)
  | wrongDataLength (msg : String)
  | negativeStringLength (msg : String)
deriving DecidableEq, Repr

/-! ## VleDeltaIntCompressor -/

/-- The delta loop of `VleDeltaIntCompressor::compress`:
`deltas.push(d - last); last = d` (wrapping subtraction). -/
def computeDeltas (last : Int) : List Int → List Int
  | [] => []
  | d :: rest => wrap64 (d - last) :: computeDeltas d rest

namespace VleDeltaIntCompressor

def compress (data : List Int) : Except CompressorError (List Nat) :=
  .ok (((computeDeltas 0 data).map fun d => encodeVarint (zigzagEncode d)).flatten)

/-- The cursor loop of `decompress`: repeatedly decode one varint and advance
by the consumed byte count; error out when decoding fails. -/
def parseVarints (cursor : List Nat) : Except CompressorError (List Int) :=
  if h : cursor = [] then .ok []
  else
    match h2 : decodeVarint cursor with
    | none => .error (.vleDecoding "Decoder stopped before going through all data")
    | some (d, n) =>
      match parseVarints (cursor.drop n) with
      | .error e => .error e
      | .ok ds => .ok (zigzagDecode d :: ds)
termination_by cursor.length
decreasing_by
  have hc := decodeVarint_consumed h2
  have : cursor.length ≠ 0 := by
    intro h0
    exact h (List.length_eq_zero.mp h0)
  simp only [List.length_drop]
  omega

/-- The prefix-sum loop of `decompress`:
`data.push(delta + last); last += delta` (wrapping addition). -/
def reconstruct (last : Int) : List Int → List Int
  | [] => []
  | delta :: rest => wrap64 (delta + last) :: reconstruct (wrap64 (delta + last)) rest

def decompress (compressed : List Nat) : Except CompressorError (List Int) :=
  match parseVarints compressed with
  | .error e => .error e
  | .ok deltas => .ok (reconstruct 0 deltas)

end VleDeltaIntCompressor

theorem parseVarints_join (ds : List Int) :
    VleDeltaIntCompressor.parseVarints
      ((ds.map fun d => encodeVarint (zigzagEncode d)).flatten) = .ok ds := by
  induction ds with
  | nil => simp [VleDeltaIntCompressor.parseVarints]
  | cons d rest ih =>
    rw [List.map_cons, List.flatten]
    rw [VleDeltaIntCompressor.parseVarints]
    have hne : encodeVarint (zigzagEncode d) ++ (rest.map fun d => encodeVarint (zigzagEncode d)).flatten ≠ [] := by
      intro hnil
      exact encodeVarint_ne_nil (zigzagEncode d) (List.append_eq_nil.mp hnil).1
    rw [dif_neg hne]
    rw [decodeVarint_encodeVarint]
    simp only [List.drop_left]
    rw [ih, zigzag_roundtrip]

theorem reconstruct_computeDeltas (data : List Int) (last : Int)
    (hlast : isI64 last) (hdata : ∀ x ∈ data, isI64 x) :
    VleDeltaIntCompressor.reconstruct last (computeDeltas last data) = data := by
  induction data generalizing last with
  | nil => rfl
  | cons d rest ih =>
    simp only [computeDeltas, VleDeltaIntCompressor.reconstruct]
    have hd : isI64 d := hdata d (List.mem_cons_self d rest)
    have hval : wrap64 (wrap64 (d - last) + last) = d := by
      rw [wrap64_add_left]
      rw [show d - last + last = d by ring]
      exact wrap64_eq_self hd
    rw [hval]
    rw [ih d hd fun x hx => hdata x (List.mem_cons_of_mem d hx)]

/-! ## NoIntCompressor -/

/-- `chunks_exact(8)`: consecutive 8-byte chunks, any shorter remainder dropped. -/
def chunks8 : List Nat → List (List Nat)
  | b0 :: b1 :: b2 :: b3 :: b4 :: b5 :: b6 :: b7 :: rest =>
    [b0, b1, b2, b3, b4, b5, b6, b7] :: chunks8 rest
  | _ => []

theorem chunks8_append {b : List Nat} (h : b.length = 8) (rest : List Nat) :
    chunks8 (b ++ rest) = b :: chunks8 rest := by
  rcases b with _ | ⟨x0, _ | ⟨x1, _ | ⟨x2, _ | ⟨x3, _ | ⟨x4, _ | ⟨x5, _ | ⟨x6, _ | ⟨x7, tail⟩⟩⟩⟩⟩⟩⟩⟩ <;>
    simp only [List.length_cons, List.length_nil] at h <;> try omega
  have htail : tail = [] := List.length_eq_zero.mp (by omega)
  subst htail
  rfl

namespace NoIntCompressor

def compress (data : List Int) : Except CompressorError (List Nat) :=
  .ok ((data.map i64ToLeBytes).flatten)

def decompress (compressed : List Nat) : Except CompressorError (List Int) :=
  if compressed.length % 8 ≠ 0 then
    .error (.wrongDataLength "Data length must be divisable by 8")
  else
    .ok ((chunks8 compressed).map i64FromLeBytes)

end NoIntCompressor

theorem chunks8_join_le (data : List Int) :
    chunks8 ((data.map i64ToLeBytes).flatten) = data.map i64ToLeBytes := by
  induction data with
  | nil => rfl
  | cons d rest ih =>
    rw [List.map_cons, List.flatten_cons]
    have hlen : (i64ToLeBytes d).length = 8 := by
      unfold i64ToLeBytes; exact toLeBytes_length 8 _
    rw [chunks8_append hlen, ih]

/-! ## String codecs -/

/-- A Rust `String` payload, as its UTF-8 bytes. -/
abbrev RStr := List Nat

/-- `CompressedStringColumn` from `src/compress.rs`. -/
structure CompressedStringColumn where
  data : List Nat
  lengths : List Int
deriving DecidableEq, Repr

/-- Model of `lz4_flex::block::compress_prepend_size`: the uncompressed size
as a 32-bit little-endian prefix, followed by the (externally compressed)
payload.  The LZ4 entropy coding itself lives in the external `lz4_flex`
crate; its bijectivity on the payload is modelled by storing the payload. -/
def lz4CompressPrependSize (raw : List Nat) : List Nat :=
  toLeBytes 4 (raw.length % 2 ^ 32) ++ raw

/-- Model of `lz4_flex::block::decompress_size_prepended`. -/
def lz4DecompressSizePrepended (blob : List Nat) : Except CompressorError (List Nat) :=
  if blob.length < 4 then .error (.lz4Decompression "input too short")
  else if (blob.drop 4).length = fromLeBytesNat (blob.take 4) then .ok (blob.drop 4)
  else .error (.lz4Decompression "uncompressed size mismatch")

/-- The offset loop shared by `LZ4StringCompressor::decompress` and
`NoStringCompressor::decompress`: slice `raw` by the running offsets of
`lengths`. `String::from_utf8` is applied to bytes sliced out of
concatenated UTF-8 strings, so the byte-level model keeps the bytes. -/
def sliceStrings (raw : List Nat) : List Int → Nat → Except CompressorError (List RStr)
  | [], _ => .ok []
  | len :: rest, offset =>
    if len < 0 then .error (.negativeStringLength "Negative string length was passed")
    else if raw.length < offset + len.toNat then
      .error (.wrongDataLength "Data length is shorter then declared strings lengths")
    else
      match sliceStrings raw rest (offset + len.toNat) with
      | .error e => .error e
      | .ok res => .ok (((raw.drop offset).take len.toNat) :: res)

namespace LZ4StringCompressor

def compress (data : List RStr) : Except CompressorError CompressedStringColumn :=
  .ok ⟨lz4CompressPrependSize data.flatten, data.map fun d => (d.length : Int)⟩

def decompress (compressed : CompressedStringColumn) : Except CompressorError (List RStr) :=
  match lz4DecompressSizePrepended compressed.data with
  | .error e => .error e
  | .ok raw => sliceStrings raw compressed.lengths 0

end LZ4StringCompressor

namespace NoStringCompressor

def compress (data : List RStr) : Except CompressorError CompressedStringColumn :=
  .ok ⟨data.flatten, data.map fun d => (d.length : Int)⟩

def decompress (compressed : CompressedStringColumn) : Except CompressorError (List RStr) :=
  sliceStrings compressed.data compressed.lengths 0

end NoStringCompressor

theorem sliceStrings_join (strs : List RStr) (pre : List Nat) :
    sliceStrings (pre ++ strs.flatten) (strs.map fun d => (d.length : Int)) pre.length
      = .ok strs := by
  induction strs generalizing pre with
  | nil => rfl
  | cons s rest ih =>
    rw [List.map_cons, sliceStrings]
    rw [if_neg (by omega)]
    have htoNat : ((s.length : Int)).toNat = s.length := Int.toNat_ofNat _
    have hlen : ¬ (pre ++ (s :: rest).flatten).length < pre.length + ((s.length : Int)).toNat := by
      simp only [htoNat, List.flatten_cons, List.length_append]
      omega
    rw [if_neg hlen]
    have hdrop : (pre ++ (s :: rest).flatten).drop pre.length = (s :: rest).flatten :=
      List.drop_left _ _
    have hjoin : (s :: rest).flatten = s ++ rest.flatten := by simp [List.flatten]
    have htake : ((pre ++ (s :: rest).flatten).drop pre.length).take ((s.length : Int)).toNat = s := by
      rw [hdrop, hjoin, htoNat]
      exact List.take_left _ _
    have hrec : sliceStrings (pre ++ (s :: rest).flatten)
        (rest.map fun d => (d.length : Int)) (pre.length + ((s.length : Int)).toNat)
        = .ok rest := by
      have : pre ++ (s :: rest).flatten = (pre ++ s) ++ rest.flatten := by
        rw [hjoin, List.append_assoc]
      rw [this, htoNat, show pre.length + s.length = (pre ++ s).length by simp]
      exact ih (pre ++ s)
    rw [hrec, htake]

/-! ## Codec dispatch enums -/

/-- `IntCompressors` in `src/compress.rs`. -/
inductive IntCompressors where
  | VleDelta
  | NoCompression
deriving DecidableEq, Repr

def IntCompressors.compress : IntCompressors → List Int → Except CompressorError (List Nat)
  | .VleDelta, data => VleDeltaIntCompressor.compress data
  | .NoCompression, data => NoIntCompressor.compress data

def IntCompressors.decompress : IntCompressors → List Nat → Except CompressorError (List Int)
  | .VleDelta, data => VleDeltaIntCompressor.decompress data
  | .NoCompression, data => NoIntCompressor.decompress data

/-- `StringCompressors` in `src/compress.rs`. -/
inductive StringCompressors where
  | Lz4
  | NoCompression
deriving DecidableEq, Repr

def StringCompressors.compress :
    StringCompressors → List RStr → Except CompressorError CompressedStringColumn
  | .Lz4, data => LZ4StringCompressor.compress data
  | .NoCompression, data => NoStringCompressor.compress data

def StringCompressors.decompress :
    StringCompressors → CompressedStringColumn → Except CompressorError (List RStr)
  | .Lz4, data => LZ4StringCompressor.decompress data
  | .NoCompression, data => NoStringCompressor.decompress data

/-! ## Codec round trips (claim C1) -/

theorem vleDelta_roundtrip (data : List Int) (h : ∀ x ∈ data, isI64 x) :
    (VleDeltaIntCompressor.compress data).bind VleDeltaIntCompressor.decompress
      = .ok data := by
  show VleDeltaIntCompressor.decompress _ = _
  unfold VleDeltaIntCompressor.decompress
  rw [parseVarints_join]
  exact congrArg Except.ok (reconstruct_computeDeltas data 0 (by unfold isI64; omega) h)

theorem flatten_map_i64ToLeBytes_length (data : List Int) :
    ((data.map i64ToLeBytes).flatten).length = 8 * data.length := by
  induction data with
  | nil => rfl
  | cons d rest ih =>
    simp only [List.map_cons, List.flatten_cons, List.length_append, ih]
    have : (i64ToLeBytes d).length = 8 := toLeBytes_length 8 _
    simp [this, List.length_cons]
    ring

theorem noInt_roundtrip (data : List Int) (h : ∀ x ∈ data, isI64 x) :
    (NoIntCompressor.compress data).bind NoIntCompressor.decompress = .ok data := by
  show NoIntCompressor.decompress _ = _
  unfold NoIntCompressor.decompress
  rw [if_neg (by rw [flatten_map_i64ToLeBytes_length]; omega)]
  rw [chunks8_join_le]
  congr 1
  rw [List.map_map]
  induction data with
  | nil => rfl
  | cons d rest ih =>
    simp only [List.map_cons, Function.comp_apply]
    rw [i64_le_roundtrip (h d (List.mem_cons_self d rest)),
      ih fun x hx => h x (List.mem_cons_of_mem d hx)]

theorem lz4String_roundtrip (strs : List RStr) (hsize : strs.flatten.length < 2 ^ 32) :
    (LZ4StringCompressor.compress strs).bind LZ4StringCompressor.decompress
      = .ok strs := by
  show LZ4StringCompressor.decompress _ = _
  unfold LZ4StringCompressor.decompress lz4DecompressSizePrepended lz4CompressPrependSize
  have h4 : (toLeBytes 4 (strs.flatten.length % 2 ^ 32)).length = 4 := toLeBytes_length 4 _
  rw [if_neg (by rw [List.length_append, h4]; omega)]
  rw [List.drop_left' h4, List.take_left' h4]
  rw [fromLeBytes_toLeBytes_4 (Nat.mod_lt _ (by omega))]
  rw [Nat.mod_eq_of_lt hsize, if_pos rfl]
  simpa using sliceStrings_join strs []

theorem noString_roundtrip (strs : List RStr) :
    (NoStringCompressor.compress strs).bind NoStringCompressor.decompress
      = .ok strs := by
  show NoStringCompressor.decompress _ = _
  unfold NoStringCompressor.decompress
  simpa using sliceStrings_join strs []

/-- C1: for every codec variant (variable-length-delta and no-op for int64
columns; LZ4 and no-op for string columns) and every non-empty list of values
of the matching type, decompressing the result of compressing the list
returns exactly the original list. -/
theorem c1_codec_roundtrip
    (ints : List Int) (strs : List RStr)
    (hne : ints ≠ []) (hrange : ∀ x ∈ ints, isI64 x)
    (hsne : strs ≠ []) (hsize : strs.flatten.length < 2 ^ 32) :
    (∀ c : IntCompressors, (c.compress ints).bind c.decompress = .ok ints) ∧
    (∀ c : StringCompressors, (c.compress strs).bind c.decompress = .ok strs) := by
  constructor
  · intro c
    cases c with
    | VleDelta => exact vleDelta_roundtrip ints hrange
    | NoCompression => exact noInt_roundtrip ints hrange
  · intro c
    cases c with
    | Lz4 => exact lz4String_roundtrip strs hsize
    | NoCompression => exact noString_roundtrip strs

/-- Witness for C1 at concrete inputs `[1, 2, 3]` and `["x", "yy"]`. -/
theorem c1_codec_roundtrip_witness :
    (∀ c : IntCompressors,
        (c.compress [1, 2, 3]).bind c.decompress = .ok [1, 2, 3]) ∧
    (∀ c : StringCompressors,
        (c.compress [[120], [121, 121]]).bind c.decompress
          = .ok [[120], [121, 121]]) :=
  c1_codec_roundtrip [1, 2, 3] [[120], [121, 121]]
    (by decide) (by decide) (by decide) (by decide)

/-! ## Serializer on-disk format (`src/lib.rs`)

The serializer's `deserialize` reads an in-memory byte file.  I/O failure
(`read_exact` past end of file) is `ioError`; the source's
`Error::new(ErrorKind::InvalidData, "Incorrect file indicator")` responses
for bad magic and unknown type tags are `invalidFileFormat` (the spec's
`SerializerError::InvalidFileFormat` class); codec failures are wrapped in
`compressor`.  Column names are kept as their raw bytes
(`String::from_utf8_lossy` never fails). -/

inductive ColumnType where
  | INT64
  | STR
deriving DecidableEq, Repr

structure SerColumn where
  name : List Nat
  col_type : ColumnType
  int_data : Option (List Int)
  str_data : Option (List RStr)
deriving DecidableEq, Repr

structure SerTable where
  num_rows : Nat
  columns : List SerColumn
deriving DecidableEq, Repr

inductive SerializerError where
  | invalidFileFormat
  | ioError
  | compressor (e : CompressorError)
deriving DecidableEq, Repr

/-- `Read::read_exact` on an in-memory file: `n` bytes starting at `pos`. -/
def readExact (file : List Nat) (pos n : Nat) : Except SerializerError (List Nat) :=
  if pos + n ≤ file.length then .ok ((file.drop pos).take n) else .error .ioError

/-- `Vec::resize(n, pad)`: truncate to `n` or pad with `pad` up to `n`. -/
def listResize (l : List α) (n : Nat) (pad : α) : List α :=
  l.take n ++ List.replicate (n - l.length) pad

theorem listResize_length (l : List α) (n : Nat) (pad : α) :
    (listResize l n pad).length = n := by
  simp [listResize]
  omega

structure ColumnDescription where
  name : List Nat
  col_type : ColumnType
  offset : Nat
  length : Nat
  length2 : Nat
deriving DecidableEq, Repr

/-- The per-column header parse loop of `Serializer::deserialize`:
name length byte, name bytes, type tag (0 = INT64, 1 = STR, anything
else is an invalid-format error), 8-byte offset, 8-byte length, and for
STRING columns a further 8-byte sidecar length. -/
def readDescriptions (file : List Nat) :
    Nat → Nat → Except SerializerError (List ColumnDescription × Nat)
  | 0, pos => .ok ([], pos)
  | k + 1, pos =>
    match readExact file pos 1 with
    | .error e => .error e
    | .ok nl =>
      let nameLength := nl.getD 0 0
      match readExact file (pos + 1) nameLength with
      | .error e => .error e
      | .ok nameBytes =>
        match readExact file (pos + 1 + nameLength) 1 with
        | .error e => .error e
        | .ok t =>
          let tb := t.getD 0 0
          if tb ≠ 0 ∧ tb ≠ 1 then .error .invalidFileFormat
          else
            match readExact file (pos + 1 + nameLength + 1) 8 with
            | .error e => .error e
            | .ok off =>
              match readExact file (pos + 1 + nameLength + 1 + 8) 8 with
              | .error e => .error e
              | .ok len =>
                if tb = 0 then
                  match readDescriptions file k (pos + 1 + nameLength + 1 + 16) with
                  | .error e => .error e
                  | .ok (descs, pos') =>
                    .ok (⟨nameBytes, .INT64, fromLeBytesNat off,
                          fromLeBytesNat len, 0⟩ :: descs, pos')
                else
                  match readExact file (pos + 1 + nameLength + 1 + 16) 8 with
                  | .error e => .error e
                  | .ok len2 =>
                    match readDescriptions file k (pos + 1 + nameLength + 1 + 24) with
                    | .error e => .error e
                    | .ok (descs, pos') =>
                      .ok (⟨nameBytes, .STR, fromLeBytesNat off,
                            fromLeBytesNat len, fromLeBytesNat len2⟩ :: descs, pos')

/-- The per-column payload loop of `Serializer::deserialize`: seek to the
recorded offset, read `DATA_LEN` bytes, decompress (for STRING columns also
the trailing sidecar), then `resize` to `num_rows` (padding with `0` /
the empty string, truncating when longer). -/
def readColumns (intC : IntCompressors) (strC : StringCompressors)
    (file : List Nat) (numRows : Nat) :
    List ColumnDescription → Except SerializerError (List SerColumn)
  | [] => .ok []
  | desc :: rest =>
    match readExact file desc.offset desc.length with
    | .error e => .error e
    | .ok buf =>
      match desc.col_type with
      | .INT64 =>
        match intC.decompress buf with
        | .error e => .error (.compressor e)
        | .ok intData =>
          match readColumns intC strC file numRows rest with
          | .error e => .error e
          | .ok cols =>
            .ok (⟨desc.name, .INT64, some (listResize intData numRows 0), none⟩ :: cols)
      | .STR =>
        match readExact file (desc.offset + desc.length) desc.length2 with
        | .error e => .error e
        | .ok buf2 =>
          match intC.decompress buf2 with
          | .error e => .error (.compressor e)
          | .ok lengthsData =>
            match strC.decompress ⟨buf, lengthsData⟩ with
            | .error e => .error (.compressor e)
            | .ok strData =>
              match readColumns intC strC file numRows rest with
              | .error e => .error e
              | .ok cols =>
                .ok (⟨desc.name, .STR, none, some (listResize strData numRows [])⟩ :: cols)

/-- `Serializer::deserialize` (src/lib.rs lines 242-368): magic, version,
column count, row count, the column headers, then the column payloads.
The function returns right after the payload loop; the FOOTER bytes are
never read or validated. -/
def deserialize (intC : IntCompressors) (strC : StringCompressors)
    (file : List Nat) : Except SerializerError SerTable :=
  match readExact file 0 4 with
  | .error e => .error e
  | .ok magic =>
    if magic ≠ [73, 83, 66, 68] then .error .invalidFileFormat
    else
      match readExact file 4 1 with
      | .error e => .error e
      | .ok _version =>
        match readExact file 5 2 with
        | .error e => .error e
        | .ok cols2 =>
          match readExact file 7 8 with
          | .error e => .error e
          | .ok rows8 =>
            match readDescriptions file (fromLeBytesNat cols2) 15 with
            | .error e => .error e
            | .ok (descs, _) =>
              match readColumns intC strC file (fromLeBytesNat rows8) descs with
              | .error e => .error e
              | .ok columns => .ok ⟨fromLeBytesNat rows8, columns⟩

/-- The length of the value vector a `SerColumn` actually carries. -/
def colLen (c : SerColumn) : Nat :=
  match c.col_type with
  | .INT64 => (c.int_data.getD []).length
  | .STR => (c.str_data.getD []).length

theorem readColumns_lengths {intC : IntCompressors} {strC : StringCompressors}
    {file : List Nat} {numRows : Nat} {descs : List ColumnDescription}
    {cols : List SerColumn}
    (h : readColumns intC strC file numRows descs = .ok cols) :
    ∀ c ∈ cols, colLen c = numRows := by
  induction descs generalizing cols with
  | nil =>
    simp only [readColumns, Except.ok.injEq] at h
    subst h
    simp
  | cons desc rest ih =>
    simp only [readColumns] at h
    split at h
    · exact absurd h (by simp)
    · split at h
      · split at h
        · exact absurd h (by simp)
        · split at h
          · exact absurd h (by simp)
          · simp only [Except.ok.injEq] at h
            subst h
            intro c hc
            rcases List.mem_cons.mp hc with rfl | hmem
            · simp [colLen, listResize_length]
            · exact ih (by assumption) c hmem
      · split at h
        · exact absurd h (by simp)
        · split at h
          · exact absurd h (by simp)
          · split at h
            · exact absurd h (by simp)
            · split at h
              · exact absurd h (by simp)
              · simp only [Except.ok.injEq] at h
                subst h
                intro c hc
                rcases List.mem_cons.mp hc with rfl | hmem
                · simp [colLen, listResize_length]
                · exact ih (by assumption) c hmem

/-- C9: every table a successful `Serializer::deserialize` returns satisfies
the column-length invariant exactly — each decoded column's value vector has
length precisely `num_rows`, because the decoder resizes every column to
`num_rows` (padding with `0` / the empty string when shorter, truncating when
longer). -/
theorem c9_deserialize_column_lengths
    (intC : IntCompressors) (strC : StringCompressors) (file : List Nat)
    (t : SerTable) (h : deserialize intC strC file = .ok t) :
    ∀ c ∈ t.columns, colLen c = t.num_rows := by
  unfold deserialize at h
  split at h
  · exact absurd h (by simp)
  · split at h
    · exact absurd h (by simp)
    · split at h
      · exact absurd h (by simp)
      · split at h
        · exact absurd h (by simp)
        · split at h
          · exact absurd h (by simp)
          · split at h
            · exact absurd h (by simp)
            · split at h
              · exact absurd h (by simp)
              · simp only [Except.ok.injEq] at h
                subst h
                exact readColumns_lengths (by assumption)

/-- A concrete well-formed file: one INT64 column "a" holding one encoded
value `5`, with `NUM_ROWS = 2` (so the decoder pads the column to length 2). -/
def c9File : List Nat :=
  [73, 83, 66, 68, 1, 1, 0, 2, 0, 0, 0, 0, 0, 0, 0,
   1, 97, 0, 34, 0, 0, 0, 0, 0, 0, 0, 8, 0, 0, 0, 0, 0, 0, 0,
   5, 0, 0, 0, 0, 0, 0, 0]

/-- Witness for C9: the concrete file decodes and both decoded columns have
length `num_rows = 2`. -/
theorem c9_deserialize_column_lengths_witness :
    deserialize .NoCompression .NoCompression c9File
        = .ok ⟨2, [⟨[97], .INT64, some [5, 0], none⟩]⟩ ∧
    ∀ c ∈ (SerTable.mk 2 [⟨[97], .INT64, some [5, 0], none⟩]).columns,
      colLen c = (SerTable.mk 2 [⟨[97], .INT64, some [5, 0], none⟩]).num_rows :=
  ⟨by rfl, c9_deserialize_column_lengths .NoCompression .NoCompression c9File
    ⟨2, [⟨[97], .INT64, some [5, 0], none⟩]⟩ (by rfl)⟩

/-- A file with valid magic and header but trailing bytes `"XXXX"` where the
`"ENDC"` footer should be. -/
def c7BadFooterFile : List Nat :=
  [73, 83, 66, 68, 1, 0, 0, 0, 0, 0, 0, 0, 0, 0, 0, 88, 88, 88, 88]

/-- A file whose single column header carries the unknown type tag `2`. -/
def c7BadTagFile : List Nat :=
  [73, 83, 66, 68, 1, 1, 0, 0, 0, 0, 0, 0, 0, 0, 0, 1, 97, 2]

/-- C7 counterexample: `deserialize` accepts a file whose footer bytes are
not `"ENDC"` — the claim that such a file is rejected is false. -/
theorem c7_counterexample :
    deserialize .VleDelta .Lz4 c7BadFooterFile = .ok ⟨0, []⟩ ∧
    c7BadFooterFile.drop (c7BadFooterFile.length - 4) ≠ [69, 78, 68, 67] := by
  exact ⟨by rfl, by decide⟩

/-- C7 (amended): `deserialize` fails with the `InvalidFileFormat` class when
the 4-byte magic is not `"ISBD"` or when a column header carries an unknown
type tag; the footer is never read, so wrong footer bytes are not rejected. -/
theorem c7_amended_invalid_format :
    (∀ (intC : IntCompressors) (strC : StringCompressors)
        (b0 b1 b2 b3 : Nat) (rest : List Nat),
        [b0, b1, b2, b3] ≠ [73, 83, 66, 68] →
        deserialize intC strC (b0 :: b1 :: b2 :: b3 :: rest)
          = .error .invalidFileFormat) ∧
    deserialize .VleDelta .Lz4 c7BadTagFile = .error .invalidFileFormat := by
  constructor
  · intro intC strC b0 b1 b2 b3 rest hm
    have hre : readExact (b0 :: b1 :: b2 :: b3 :: rest) 0 4 = .ok [b0, b1, b2, b3] := by
      unfold readExact
      rw [if_pos (by simp only [List.length_cons]; omega)]
      rfl
    unfold deserialize
    rw [hre]
    simp only []
    rw [if_pos hm]
  · rfl

/-- Witness for the amended C7 at a concrete bad-magic file. -/
theorem c7_amended_invalid_format_witness :
    deserialize .VleDelta .Lz4 [0, 0, 0, 0] = .error .invalidFileFormat :=
  c7_amended_invalid_format.1 .VleDelta .Lz4 0 0 0 0 [] (by decide)

/-! ## Expressions and type checking (`src/query.rs`) -/

inductive Literal where
  | i64 (v : Int)
  | str (v : RStr)
  | bool (v : Bool)
deriving DecidableEq, Repr

inductive FunctionName where
  | Strlen
  | Concat
  | Upper
  | Lower
deriving DecidableEq, Repr

def FunctionName.num_arguments : FunctionName → Nat
  | .Strlen | .Upper | .Lower => 1
  | .Concat => 2

inductive ExpressionType where
  | I64
  | String
  | Bool
deriving DecidableEq, Repr

def FunctionName.arguments_types : FunctionName → List ExpressionType
  | .Strlen | .Upper | .Lower => [.String]
  | .Concat => [.String, .String]

def FunctionName.get_type : FunctionName → ExpressionType
  | .Upper | .Lower | .Concat => .String
  | .Strlen => .I64

/-- The `Display` rendering of a function name, used in error messages. -/
def FunctionName.display : FunctionName → String
  | .Strlen => "STRLEN"
  | .Concat => "CONCAT"
  | .Upper => "UPPER"
  | .Lower => "LOWER"

inductive BinOperator where
  | Add
  | Subtract
  | Multiply
  | Divide
  | And
  | Or
  | Equal
  | NotEqual
  | LessThan
  | LessEqual
  | GreaterThan
  | GreaterEqual
deriving DecidableEq, Repr

def BinOperator.get_type : BinOperator → ExpressionType
  | .Add | .Subtract | .Multiply | .Divide => .I64
  | _ => .Bool

def BinOperator.get_args_types : BinOperator → Option (ExpressionType × ExpressionType)
  | .Add | .Subtract | .Multiply | .Divide => some (.I64, .I64)
  | .And | .Or => some (.Bool, .Bool)
  | _ => none

def BinOperator.is_commutative : BinOperator → Bool
  | .Add | .Multiply | .And | .Or | .Equal | .NotEqual => true
  | _ => false

inductive Operator where
  | Not
  | Minus
deriving DecidableEq, Repr

def Operator.get_type : Operator → ExpressionType
  | .Not => .Bool
  | .Minus => .I64

def Operator.get_argument_type : Operator → ExpressionType
  | .Not => .Bool
  | .Minus => .I64

inductive ColumnExpression where
  | Ref (table_name column_name : String)
  | Literal (l : Literal)
  | Function (name : FunctionName) (arguments : List ColumnExpression)
  | Binary (left_operand : ColumnExpression) (operator : BinOperator)
      (right_operand : ColumnExpression)
  | Unary (operator : Operator) (operand : ColumnExpression)
deriving Repr

mutual

/-- `ColumnExpression::collect_columns_names` (the `HashSet` of referenced
column names, modelled as the list of occurrences; only membership is used). -/
def ColumnExpression.get_columns_names : ColumnExpression → List String
  | .Ref _ column_name => [column_name]
  | .Literal _ => []
  | .Function _ args => getColumnsNamesList args
  | .Binary l _ r => l.get_columns_names ++ r.get_columns_names
  | .Unary _ e => e.get_columns_names

def getColumnsNamesList : List ColumnExpression → List String
  | [] => []
  | e :: es => e.get_columns_names ++ getColumnsNamesList es

end

/-- A table schema as the `name → type` map captured by the planner. -/
abbrev Schema := List (String × ExpressionType)

mutual

/-- `ColumnExpression::get_type` (src/query.rs lines 319-385). -/
def ColumnExpression.get_type (table_schema : Schema) :
    ColumnExpression → Except String ExpressionType
  | .Ref _ column_name =>
    match table_schema.lookup column_name with
    | some t => .ok t
    | none => .error "Column not found in schema"
  | .Literal l =>
    match l with
    | .i64 _ => .ok .I64
    | .str _ => .ok .String
    | .bool _ => .ok .Bool
  | .Function name args =>
    match getTypeList table_schema args with
    | .error e => .error e
    | .ok argTypes =>
      if argTypes.length ≠ name.arguments_types.length then
        .error ("Wrong number of arguments in function " ++ name.display)
      else if argTypes ≠ name.arguments_types then
        .error ("Wrong type of arguments in function " ++ name.display)
      else .ok name.get_type
  | .Binary l op r =>
    match l.get_type table_schema with
    | .error e => .error e
    | .ok left_type =>
      match r.get_type table_schema with
      | .error e => .error e
      | .ok right_type =>
        match op.get_args_types with
        | some (left, right) =>
          if left_type ≠ left ∨ right_type ≠ right then
            .error "Wrong types of arguments in binary oparation"
          else .ok op.get_type
        | none =>
          if left_type ≠ right_type then
            .error "Wrong types of arguments in binary oparation"
          else .ok op.get_type
  | .Unary op e =>
    match e.get_type table_schema with
    | .error er => .error er
    | .ok operand_type =>
      if operand_type ≠ op.get_argument_type then
        .error "Wrong argument type in unary operation"
      else .ok op.get_type

def getTypeList (table_schema : Schema) :
    List ColumnExpression → Except String (List ExpressionType)
  | [] => .ok []
  | e :: es =>
    match e.get_type table_schema with
    | .error er => .error er
    | .ok t =>
      match getTypeList table_schema es with
      | .error er => .error er
      | .ok ts => .ok (t :: ts)

end

/-! ## Planner (`src/planner.rs`) -/

inductive FlatExpression where
  | Ref (name : String)
  | Literal (l : Literal)
  | Function (name : FunctionName) (args : List Nat)
  | Binary (left : Nat) (op : BinOperator) (right : Nat)
  | Unary (op : Operator) (child : Nat)
deriving DecidableEq, Repr

/-- The hash-consing state of `Planner::flatten_expression`: the flat
expression vector and the `seen` map from nodes to their interned ids. -/
structure FlattenSt where
  flat : List FlatExpression
  seen : List (FlatExpression × Nat)
deriving DecidableEq, Repr

/-- The lookup-or-insert tail of `flatten_expression`: reuse a seen node's
id, otherwise assign the next vector index and record it. -/
def internNode (node : FlatExpression) (st : FlattenSt) : Nat × FlattenSt :=
  match st.seen.lookup node with
  | some id => (id, st)
  | none => (st.flat.length, ⟨st.flat ++ [node], (node, st.flat.length) :: st.seen⟩)

/-- The child-id canonicalisation of `flatten_expression`: for a commutative
operator with `left_id < right_id` the ids are swapped, so the interned node
always has `left ≥ right`. -/
def canonPair (op : BinOperator) (l r : Nat) : Nat × Nat :=
  if op.is_commutative = true ∧ l < r then (r, l) else (l, r)

mutual

/-- `Planner::flatten_expression` (src/planner.rs lines 192-240). -/
def flattenExpression : ColumnExpression → FlattenSt → Nat × FlattenSt
  | .Ref _ column_name, st => internNode (.Ref column_name) st
  | .Literal l, st => internNode (.Literal l) st
  | .Function name args, st =>
    let (ids, st') := flattenArgs args st
    internNode (.Function name ids) st'
  | .Binary l op r, st =>
    let (lid, st1) := flattenExpression l st
    let (rid, st2) := flattenExpression r st1
    let (lid', rid') := canonPair op lid rid
    internNode (.Binary lid' op rid') st2
  | .Unary op e, st =>
    let (cid, st') := flattenExpression e st
    internNode (.Unary op cid) st'

def flattenArgs : List ColumnExpression → FlattenSt → List Nat × FlattenSt
  | [], st => ([], st)
  | e :: es, st =>
    let (i, st') := flattenExpression e st
    let (is, st'') := flattenArgs es st'
    (i :: is, st'')

end

/-! ## Hash-consing properties of `flatten_expression` (claim C3) -/

/-- State extension: every interned binding of `s` is still interned with
the same id in `s'`. -/
def StExt (s s' : FlattenSt) : Prop :=
  ∀ n i, s.seen.lookup n = some i → s'.seen.lookup n = some i

theorem StExt.rfl (s : FlattenSt) : StExt s s := fun _ _ h => h

theorem StExt.trans {s1 s2 s3 : FlattenSt} (h1 : StExt s1 s2) (h2 : StExt s2 s3) :
    StExt s1 s3 :=
  fun n i h => h2 n i (h1 n i h)

theorem internNode_ext (node : FlatExpression) (st : FlattenSt) :
    StExt st (internNode node st).2 := by
  unfold internNode
  cases hlk : st.seen.lookup node with
  | some id => exact StExt.rfl st
  | none =>
    intro n i h
    simp only [List.lookup]
    cases hbeq : n == node with
    | true =>
      rw [show n = node from beq_iff_eq.mp hbeq] at h
      rw [hlk] at h
      exact absurd h (by simp)
    | false => exact h

theorem internNode_lookup {node : FlatExpression} {st : FlattenSt} {i : Nat}
    {s' : FlattenSt} (h : internNode node st = (i, s')) :
    s'.seen.lookup node = some i := by
  unfold internNode at h
  cases hlk : st.seen.lookup node with
  | some id =>
    rw [hlk] at h
    simp only [Prod.mk.injEq] at h
    obtain ⟨rfl, rfl⟩ := h
    exact hlk
  | none =>
    rw [hlk] at h
    simp only [Prod.mk.injEq] at h
    obtain ⟨rfl, rfl⟩ := h
    simp [List.lookup]

theorem internNode_stable {node : FlatExpression} {st : FlattenSt} {i : Nat}
    (h : st.seen.lookup node = some i) : internNode node st = (i, st) := by
  unfold internNode
  rw [h]

mutual

theorem flatten_ext : ∀ (e : ColumnExpression) (st : FlattenSt),
    StExt st (flattenExpression e st).2
  | .Ref _ _, _ => internNode_ext _ _
  | .Literal _, _ => internNode_ext _ _
  | .Function name args, st =>
    StExt.trans (flattenArgs_ext args st) (internNode_ext _ _)
  | .Binary l op r, st =>
    StExt.trans (flatten_ext l st)
      (StExt.trans (flatten_ext r (flattenExpression l st).2) (internNode_ext _ _))
  | .Unary op e, st =>
    StExt.trans (flatten_ext e st) (internNode_ext _ _)

theorem flattenArgs_ext : ∀ (es : List ColumnExpression) (st : FlattenSt),
    StExt st (flattenArgs es st).2
  | [], st => StExt.rfl st
  | e :: es, st =>
    StExt.trans (flatten_ext e st) (flattenArgs_ext es (flattenExpression e st).2)

end

theorem internNode_ext' {node : FlatExpression} {st : FlattenSt} {i : Nat}
    {s' : FlattenSt} (h : internNode node st = (i, s')) : StExt st s' := by
  have := internNode_ext node st
  rw [h] at this
  exact this

theorem flatten_ext' {e : ColumnExpression} {st : FlattenSt} {i : Nat}
    {s' : FlattenSt} (h : flattenExpression e st = (i, s')) : StExt st s' := by
  have := flatten_ext e st
  rw [h] at this
  exact this

theorem flattenArgs_ext' {es : List ColumnExpression} {st : FlattenSt}
    {ids : List Nat} {s' : FlattenSt} (h : flattenArgs es st = (ids, s')) :
    StExt st s' := by
  have := flattenArgs_ext es st
  rw [h] at this
  exact this

mutual

/-- Re-flattening an expression in any state extending its post-state is a
no-op returning the same interned id. -/
theorem flatten_stable : ∀ (e : ColumnExpression) (st : FlattenSt) (i : Nat)
    (s' : FlattenSt), flattenExpression e st = (i, s') →
    ∀ s'' : FlattenSt, StExt s' s'' → flattenExpression e s'' = (i, s'')
  | .Ref t c, st, i, s', h, s'', hext => by
    have hl : s'.seen.lookup (.Ref c) = some i := internNode_lookup h
    exact internNode_stable (hext _ _ hl)
  | .Literal l, st, i, s', h, s'', hext => by
    have hl : s'.seen.lookup (.Literal l) = some i := internNode_lookup h
    exact internNode_stable (hext _ _ hl)
  | .Function name args, st, i, s', h, s'', hext => by
    rcases hA : flattenArgs args st with ⟨ids, st1⟩
    have hI : internNode (.Function name ids) st1 = (i, s') := by
      have h2 := h
      simp only [flattenExpression, hA] at h2
      exact h2
    have hst1 : StExt st1 s' := internNode_ext' hI
    have hargs : flattenArgs args s'' = (ids, s'') :=
      flattenArgs_stable args st ids st1 hA s'' (hst1.trans hext)
    simp only [flattenExpression, hargs]
    exact internNode_stable (hext _ _ (internNode_lookup hI))
  | .Binary l op r, st, i, s', h, s'', hext => by
    rcases hA : flattenExpression l st with ⟨lid, st1⟩
    rcases hB : flattenExpression r st1 with ⟨rid, st2⟩
    rcases hC : canonPair op lid rid with ⟨lid', rid'⟩
    have hI : internNode (.Binary lid' op rid') st2 = (i, s') := by
      have h2 := h
      simp only [flattenExpression, hA, hB, hC] at h2
      exact h2
    have hst2 : StExt st2 s' := internNode_ext' hI
    have hl : flattenExpression l s'' = (lid, s'') :=
      flatten_stable l st lid st1 hA s''
        (((flatten_ext' hB).trans hst2).trans hext)
    have hr : flattenExpression r s'' = (rid, s'') :=
      flatten_stable r st1 rid st2 hB s'' (hst2.trans hext)
    simp only [flattenExpression, hl, hr, hC]
    exact internNode_stable (hext _ _ (internNode_lookup hI))
  | .Unary op e, st, i, s', h, s'', hext => by
    rcases hA : flattenExpression e st with ⟨cid, st1⟩
    have hI : internNode (.Unary op cid) st1 = (i, s') := by
      have h2 := h
      simp only [flattenExpression, hA] at h2
      exact h2
    have hst1 : StExt st1 s' := internNode_ext' hI
    have hc : flattenExpression e s'' = (cid, s'') :=
      flatten_stable e st cid st1 hA s'' (hst1.trans hext)
    simp only [flattenExpression, hc]
    exact internNode_stable (hext _ _ (internNode_lookup hI))

theorem flattenArgs_stable : ∀ (es : List ColumnExpression) (st : FlattenSt)
    (ids : List Nat) (s' : FlattenSt), flattenArgs es st = (ids, s') →
    ∀ s'' : FlattenSt, StExt s' s'' → flattenArgs es s'' = (ids, s'')
  | [], st, ids, s', h, s'', hext => by
    simp only [flattenArgs, Prod.mk.injEq] at h
    obtain ⟨rfl, rfl⟩ := h
    rfl
  | e :: es, st, ids, s', h, s'', hext => by
    rcases hA : flattenExpression e st with ⟨i, st1⟩
    rcases hB : flattenArgs es st1 with ⟨is', st2⟩
    have h2 := h
    simp only [flattenArgs, hA, hB, Prod.mk.injEq] at h2
    obtain ⟨rfl, rfl⟩ := h2
    have he : flattenExpression e s'' = (i, s'') :=
      flatten_stable e st i st1 hA s'' ((flattenArgs_ext' hB).trans hext)
    have hes : flattenArgs es s'' = (is', s'') :=
      flattenArgs_stable es st1 is' st2 hB s'' hext
    simp only [flattenArgs, he, hes]

end

theorem canonPair_comm {op : BinOperator} (hcomm : op.is_commutative = true)
    (x y : Nat) : canonPair op x y = canonPair op y x := by
  unfold canonPair
  split_ifs with h1 h2 h2
  · exact absurd (h1.2.trans h2.2) (lt_irrefl x)
  · rfl
  · rfl
  · have hxy : x = y := by
      simp only [hcomm, true_and] at h1 h2
      omega
    rw [hxy]

/-- C3: for every commutative binary operator and every pair of expressions
`a`, `b`, flattening `a op b` and then `b op a` into the same flat-expression
array interns both at the same node id; and the canonicalisation swaps
children ids so that `left ≥ right` before interning. -/
theorem c3_commutative_interning (op : BinOperator) (a b : ColumnExpression)
    (st : FlattenSt) (hcomm : op.is_commutative = true) :
    (flattenExpression (.Binary b op a)
        (flattenExpression (.Binary a op b) st).2).1
      = (flattenExpression (.Binary a op b) st).1 ∧
    (∀ l r : Nat, (canonPair op l r).2 ≤ (canonPair op l r).1) := by
  constructor
  · rcases h1 : flattenExpression (.Binary a op b) st with ⟨i1, s1⟩
    show (flattenExpression (.Binary b op a) s1).1 = i1
    rcases hA : flattenExpression a st with ⟨ia, sa⟩
    rcases hB : flattenExpression b sa with ⟨ib, sb⟩
    rcases hC : canonPair op ia ib with ⟨l1, r1⟩
    have hI : internNode (.Binary l1 op r1) sb = (i1, s1) := by
      have h2 := h1
      simp only [flattenExpression, hA, hB, hC] at h2
      exact h2
    have hsb : StExt sb s1 := internNode_ext' hI
    have hstb : flattenExpression b s1 = (ib, s1) :=
      flatten_stable b sa ib sb hB s1 hsb
    have hsta : flattenExpression a s1 = (ia, s1) :=
      flatten_stable a st ia sa hA s1 ((flatten_ext' hB).trans hsb)
    have hcanon : canonPair op ib ia = (l1, r1) := by
      rw [canonPair_comm hcomm, hC]
    simp only [flattenExpression, hstb, hsta, hcanon]
    rw [internNode_stable (internNode_lookup hI)]
  · intro l r
    unfold canonPair
    split_ifs with h
    · exact le_of_lt h.2
    · simp only [hcomm, true_and] at h
      omega

/-- Witness for C3 at `op = Add`, `a = 1`, `b = Ref "t" "c"`, empty state. -/
theorem c3_commutative_interning_witness :
    BinOperator.is_commutative .Add = true ∧
    ((flattenExpression (.Binary (.Ref "t" "c") .Add (.Literal (.i64 1)))
        (flattenExpression (.Binary (.Literal (.i64 1)) .Add (.Ref "t" "c"))
          ⟨[], []⟩).2).1
      = (flattenExpression (.Binary (.Literal (.i64 1)) .Add (.Ref "t" "c"))
          ⟨[], []⟩).1 ∧
     ∀ l r : Nat, (canonPair .Add l r).2 ≤ (canonPair .Add l r).1) :=
  ⟨rfl, c3_commutative_interning .Add (.Literal (.i64 1)) (.Ref "t" "c")
    ⟨[], []⟩ rfl⟩

/-! ## Select planning (validation pipeline of `Planner::select`,
src/planner.rs lines 107-190).  The metastore lookup under the read lock is
modelled by a `table id → schema` map; the `(name → index)` and
`(name → type)` maps are built from the column list exactly as the source
builds them from `table.columns` (the source's match covers the STR and
INT64 column variants). -/

structure OrderByExpression where
  column_index : Nat
  asscending : Bool
deriving DecidableEq, Repr

structure SelectQuery where
  table_id : Option String
  column_clauses : List ColumnExpression
  where_clause : Option ColumnExpression
  order_by_clause : List OrderByExpression
  limit : Option Int
deriving Repr

structure SelectPlan where
  table_id : Option String
  column_indexes_map : List (String × Nat)
  expressions_map : List FlatExpression
  column_expressions : List Nat
  filter_expression : Option Nat
  sorts : List OrderByExpression
  limit : Option Nat
deriving Repr

/-- `limit as usize`: an `i32` reinterpreted as a 64-bit unsigned size. -/
def castI32Usize (x : Int) : Nat := (x % 2 ^ 64).toNat

def resolveSchema (tables : List (String × Schema)) :
    Option String → Except String Schema
  | some table_id =>
    match tables.lookup table_id with
    | some cols => .ok cols
    | none => .error "Table was deleted before planning query"
  | none => .ok []

/-- The `for name in column_names` resolution loop. -/
def checkNames (idx : List (String × Nat)) : List String → Except String Unit
  | [] => .ok ()
  | n :: rest =>
    if (idx.lookup n).isNone then .error ("Column " ++ n ++ " not found")
    else checkNames idx rest

/-- The `for expr in chain { expr.get_type()? }` loop. -/
def checkExprTypes (schema : Schema) : List ColumnExpression → Except String Unit
  | [] => .ok ()
  | e :: es =>
    match e.get_type schema with
    | .error er => .error er
    | .ok _ => checkExprTypes schema es

/-- The WHERE-must-be-bool check. -/
def checkWhereBool (schema : Schema) : Option ColumnExpression → Except String Unit
  | none => .ok ()
  | some clause =>
    match clause.get_type schema with
    | .error e => .error e
    | .ok t =>
      if t ≠ .Bool then .error "Filter expression must be of type Boolean"
      else .ok ()

/-- The ORDER BY bound check. -/
def checkOrderBy (n : Nat) : List OrderByExpression → Except String Unit
  | [] => .ok ()
  | c :: rest =>
    if n ≤ c.column_index then
      .error ("Column index in order by clause out of bounds")
    else checkOrderBy n rest

/-- `Planner::select`, given the resolved `table id → column schema` map. -/
def plannerSelect (tables : List (String × Schema)) (select : SelectQuery) :
    Except String SelectPlan :=
  match resolveSchema tables select.table_id with
  | .error e => .error e
  | .ok cols =>
    match checkNames (cols.enum.map fun p => (p.2.1, p.1))
        (getColumnsNamesList select.column_clauses ++
          (select.where_clause.elim [] ColumnExpression.get_columns_names)) with
    | .error e => .error e
    | .ok _ =>
      match checkExprTypes cols
          (select.column_clauses ++ select.where_clause.toList) with
      | .error e => .error e
      | .ok _ =>
        match checkWhereBool cols select.where_clause with
        | .error e => .error e
        | .ok _ =>
          let flat1 := flattenArgs select.column_clauses ⟨[], []⟩
          let flat2 :=
            match select.where_clause with
            | some w =>
              let f := flattenExpression w flat1.2
              (some f.1, f.2)
            | none => (none, flat1.2)
          match checkOrderBy select.column_clauses.length select.order_by_clause with
          | .error e => .error e
          | .ok _ =>
            .ok ⟨select.table_id, cols.enum.map fun p => (p.2.1, p.1),
                 flat2.2.flat, flat1.1, flat2.1, select.order_by_clause,
                 select.limit.map castI32Usize⟩

/-! ## Binary type checking (claim C4) -/

/-- Modelled from the spec's words for the refinement comparison: operand
requirements per operator class — arithmetic needs `(i64, i64)`, boolean
connectives need `(bool, bool)`, comparisons need both sides to share a
type. -/
def specBinaryOperandsOk : BinOperator → ExpressionType → ExpressionType → Prop
  | .Add, tl, tr => tl = .I64 ∧ tr = .I64
  | .Subtract, tl, tr => tl = .I64 ∧ tr = .I64
  | .Multiply, tl, tr => tl = .I64 ∧ tr = .I64
  | .Divide, tl, tr => tl = .I64 ∧ tr = .I64
  | .And, tl, tr => tl = .Bool ∧ tr = .Bool
  | .Or, tl, tr => tl = .Bool ∧ tr = .Bool
  | _, tl, tr => tl = tr

/-- Modelled from the spec's words for the refinement comparison: the result
type is i64 for arithmetic and bool otherwise. -/
def specBinaryResultType : BinOperator → ExpressionType
  | .Add | .Subtract | .Multiply | .Divide => .I64
  | _ => .Bool

/-- The schema `Planner::select` type-checks against. -/
def schemaFor (tables : List (String × Schema)) (sq : SelectQuery) : Schema :=
  match sq.table_id with
  | some tid => (tables.lookup tid).getD []
  | none => []

theorem checkExprTypes_ok {schema : Schema} {es : List ColumnExpression}
    (h : checkExprTypes schema es = .ok ()) :
    ∀ e ∈ es, ∃ t, e.get_type schema = .ok t := by
  induction es with
  | nil => intro e he; exact absurd he (List.not_mem_nil e)
  | cons e es ih =>
    intro x hx
    simp only [checkExprTypes] at h
    cases ht : ColumnExpression.get_type schema e with
    | error er => rw [ht] at h; exact absurd h (by simp)
    | ok t =>
      rw [ht] at h
      rcases List.mem_cons.mp hx with rfl | hmem
      · exact ⟨t, ht⟩
      · exact ih h x hmem

/-- C4: a binary expression type-checks exactly when both operands type-check
and satisfy the operator's operand condition (arithmetic → both i64; boolean
connectives → both bool; comparisons → both sides share a type); a successful
check yields i64 for arithmetic and bool otherwise; and a SELECT whose WHERE
expression does not type-check to bool is rejected at planning. -/
theorem c4_binary_type_checking :
    (∀ (schema : Schema) (op : BinOperator) (l r : ColumnExpression),
      ((∃ t, (ColumnExpression.Binary l op r).get_type schema = .ok t) ↔
        (∃ tl tr, l.get_type schema = .ok tl ∧ r.get_type schema = .ok tr ∧
          specBinaryOperandsOk op tl tr)) ∧
      (∀ t, (ColumnExpression.Binary l op r).get_type schema = .ok t →
        t = specBinaryResultType op)) ∧
    (∀ (tables : List (String × Schema)) (sq : SelectQuery)
        (w : ColumnExpression),
      sq.where_clause = some w →
      w.get_type (schemaFor tables sq) ≠ .ok .Bool →
      ∃ e, plannerSelect tables sq = .error e) := by
  constructor
  · intro schema op l r
    constructor
    · constructor
      · rintro ⟨t, ht⟩
        cases hl : ColumnExpression.get_type schema l with
        | error e =>
          simp only [ColumnExpression.get_type, hl] at ht
          exact absurd ht (by simp)
        | ok tl =>
          cases hr : ColumnExpression.get_type schema r with
          | error e =>
            simp only [ColumnExpression.get_type, hl, hr] at ht
            exact absurd ht (by simp)
          | ok tr =>
            refine ⟨tl, tr, rfl, rfl, ?_⟩
            simp only [ColumnExpression.get_type, hl, hr] at ht
            cases op <;>
              simp only [BinOperator.get_args_types] at ht <;>
              simp only [specBinaryOperandsOk] <;>
              split_ifs at ht with hc <;>
              first
              | exact Except.noConfusion ht
              | (push_neg at hc; exact hc)
      · rintro ⟨tl, tr, hl, hr, hok⟩
        simp only [ColumnExpression.get_type, hl, hr]
        cases op <;>
          simp only [specBinaryOperandsOk] at hok <;>
          simp only [BinOperator.get_args_types] <;>
          (rcases hok with ⟨rfl, rfl⟩
           exact ⟨_, by rw [if_neg (by simp)]⟩)
    · intro t ht
      cases hl : ColumnExpression.get_type schema l with
      | error e =>
        simp only [ColumnExpression.get_type, hl] at ht
        exact Except.noConfusion ht
      | ok tl =>
        cases hr : ColumnExpression.get_type schema r with
        | error e =>
          simp only [ColumnExpression.get_type, hl, hr] at ht
          exact Except.noConfusion ht
        | ok tr =>
          simp only [ColumnExpression.get_type, hl, hr] at ht
          cases op <;>
            simp only [BinOperator.get_args_types] at ht <;>
            simp only [specBinaryResultType] <;>
            split_ifs at ht with hc <;>
            first
            | exact Except.noConfusion ht
            | (simp only [Except.ok.injEq, BinOperator.get_type] at ht
               exact ht.symm)
  · intro tables sq w hw hne
    cases hres : resolveSchema tables sq.table_id with
    | error e => exact ⟨e, by simp only [plannerSelect, hres]⟩
    | ok cols =>
      have hcols : cols = schemaFor tables sq := by
        cases htid : sq.table_id with
        | none =>
          rw [htid] at hres
          simp only [resolveSchema, Except.ok.injEq] at hres
          simp [schemaFor, htid, hres]
        | some tid =>
          rw [htid] at hres
          simp only [resolveSchema] at hres
          cases hlk : tables.lookup tid with
          | none => simp [hlk] at hres
          | some c =>
            simp [hlk] at hres
            simp [schemaFor, htid, hlk, hres]
      subst hcols
      cases hnames : checkNames
          (((schemaFor tables sq).enum.map fun p => (p.2.1, p.1)))
          (getColumnsNamesList sq.column_clauses ++
            (sq.where_clause.elim [] ColumnExpression.get_columns_names)) with
      | error e => exact ⟨e, by simp only [plannerSelect, hres, hnames]⟩
      | ok u =>
        cases htypes : checkExprTypes (schemaFor tables sq)
            (sq.column_clauses ++ sq.where_clause.toList) with
        | error e => exact ⟨e, by simp only [plannerSelect, hres, hnames, htypes]⟩
        | ok u2 =>
          obtain ⟨t, htw⟩ :=
            checkExprTypes_ok (by cases u2; exact htypes) w
              (List.mem_append_right _ (by rw [hw]; simp))
          have htne : t ≠ .Bool := by
            intro heq
            exact hne (by rw [← heq]; exact htw)
          have hwb : checkWhereBool (schemaFor tables sq) sq.where_clause
              = .error "Filter expression must be of type Boolean" := by
            rw [hw]
            simp only [checkWhereBool, htw]
            rw [if_pos htne]
          exact ⟨"Filter expression must be of type Boolean",
            by simp only [plannerSelect, hres, hnames, htypes, hwb]⟩

/-- Witness for C4: the binary characterisation at `a + 2` over schema
`(a : i64)`, and planner rejection of a WHERE clause of type i64. -/
theorem c4_binary_type_checking_witness :
    (((∃ t, (ColumnExpression.Binary (.Ref "t" "a") .Add (.Literal (.i64 2))).get_type
          [("a", .I64)] = .ok t) ↔
        (∃ tl tr, (ColumnExpression.Ref "t" "a").get_type [("a", .I64)] = .ok tl ∧
          (ColumnExpression.Literal (.i64 2)).get_type [("a", .I64)] = .ok tr ∧
          specBinaryOperandsOk .Add tl tr)) ∧
      (∀ t, (ColumnExpression.Binary (.Ref "t" "a") .Add (.Literal (.i64 2))).get_type
          [("a", .I64)] = .ok t → t = specBinaryResultType .Add)) ∧
    (∃ e, plannerSelect []
        ⟨none, [], some (.Literal (.i64 1)), [], none⟩ = .error e) :=
  ⟨c4_binary_type_checking.1 [("a", .I64)] .Add (.Ref "t" "a") (.Literal (.i64 2)),
   c4_binary_type_checking.2 [] ⟨none, [], some (.Literal (.i64 1)), [], none⟩
     (.Literal (.i64 1)) rfl (by decide)⟩

/-! ## Executor (`src/executor.rs`)

Column payloads are the `lib::ColumnData` sum type.  String order is Rust's
byte-wise `Ord` on `String`; `i64` arithmetic wraps (release mode).  The
executor's panicking indexing operations (`table.columns[i]`, `vec[idx]`,
`expressions_results[expr_id]`) are unreachable for planner-produced plans;
they are modelled with `get?`-with-default or explicit error markers, as
noted at each site. -/

inductive ColumnData where
  | INT64 (raw : List Int)
  | STR (raw : List RStr)
  | BOOL (raw : List Bool)
deriving DecidableEq, Repr

structure RColumn where
  name : String
  data : ColumnData
deriving DecidableEq, Repr

structure RTable where
  num_rows : Nat
  columns : List RColumn
deriving DecidableEq, Repr

/-- `Ord::cmp` on `i64`. -/
def cmpInt (a b : Int) : Ordering :=
  if a < b then .lt else if a = b then .eq else .gt

/-- `Ord::cmp` on `bool` (`false < true`). -/
def cmpBool (a b : Bool) : Ordering :=
  if a = b then .eq else if a = false then .lt else .gt

/-- `Ord::cmp` on `String`: lexicographic on the UTF-8 bytes. -/
def cmpRStr : RStr → RStr → Ordering
  | [], [] => .eq
  | [], _ :: _ => .lt
  | _ :: _, [] => .gt
  | a :: as_, b :: bs => if a < b then .lt else if b < a then .gt else cmpRStr as_ bs

/-- Collect a per-element fallible map (`collect::<Result<Vec<_>, _>>`). -/
def listMapExcept (f : α → Except String β) : List α → Except String (List β)
  | [] => .ok []
  | x :: xs =>
    match f x with
    | .error e => .error e
    | .ok y =>
      match listMapExcept f xs with
      | .error e => .error e
      | .ok ys => .ok (y :: ys)

/-- Signed 64-bit truncating division (Rust `i64::div`); the source fails the
query on a zero divisor before dividing.  (Rust additionally panics on
`i64::MIN / -1`; the model wraps — no claim exercises division overflow.) -/
def intArith (op : BinOperator) (l r : Int) : Except String Int :=
  match op with
  | .Add => .ok (wrap64 (l + r))
  | .Subtract => .ok (wrap64 (l - r))
  | .Multiply => .ok (wrap64 (l * r))
  | .Divide => if r = 0 then .error "Division by 0" else .ok (wrap64 (Int.tdiv l r))
  | _ => .error "unreachable"

/-- The per-element comparison dispatch on i64 (the source's inner match; its
`unreachable!()` arm is never taken because the outer match restricts `op`
to the six comparison operators — modelled as `false`). -/
def intCmpBool (op : BinOperator) (l r : Int) : Bool :=
  match op with
  | .Equal => l = r
  | .NotEqual => l ≠ r
  | .LessThan => l < r
  | .LessEqual => l ≤ r
  | .GreaterThan => r < l
  | .GreaterEqual => r ≤ l
  | _ => false

def strCmpExcept (op : BinOperator) (l r : RStr) : Except String Bool :=
  match op with
  | .Equal => .ok (l = r)
  | .NotEqual => .ok (l ≠ r)
  | .LessThan => .ok (cmpRStr l r = .lt)
  | .LessEqual => .ok (cmpRStr l r ≠ .gt)
  | .GreaterThan => .ok (cmpRStr l r = .gt)
  | .GreaterEqual => .ok (cmpRStr l r ≠ .lt)
  | _ => .error "Forbidden operation on strings"

def boolOpExcept (op : BinOperator) (l r : Bool) : Except String Bool :=
  match op with
  | .And => .ok (l && r)
  | .Or => .ok (l || r)
  | .Equal => .ok (l = r)
  | .NotEqual => .ok (l ≠ r)
  | .LessThan => .ok (cmpBool l r = .lt)
  | .LessEqual => .ok (cmpBool l r ≠ .gt)
  | .GreaterThan => .ok (cmpBool l r = .gt)
  | .GreaterEqual => .ok (cmpBool l r ≠ .lt)
  | _ => .error "Forbidden operation on booleans"

def zipMapExcept (f : α → α → Except String β) : List α → List α → Except String (List β)
  | [], _ => .ok []
  | _, [] => .ok []
  | x :: xs, y :: ys =>
    match f x y with
    | .error e => .error e
    | .ok z =>
      match zipMapExcept f xs ys with
      | .error e => .error e
      | .ok zs => .ok (z :: zs)

/-- `Executor::evaluate_binary_expression` (src/executor.rs lines 358-449). -/
def evaluateBinaryExpression (op : BinOperator) :
    ColumnData → ColumnData → Except String ColumnData
  | .INT64 lv, .INT64 rv =>
    match op with
    | .Add | .Subtract | .Multiply | .Divide =>
      match zipMapExcept (intArith op) lv rv with
      | .error e => .error e
      | .ok res => .ok (.INT64 res)
    | .Equal | .NotEqual | .LessThan | .LessEqual | .GreaterThan | .GreaterEqual =>
      .ok (.BOOL (List.zipWith (intCmpBool op) lv rv))
    | _ => .error "Forbidden operation on integers"
  | .STR lv, .STR rv =>
    match zipMapExcept (strCmpExcept op) lv rv with
    | .error e => .error e
    | .ok res => .ok (.BOOL res)
  | .BOOL lv, .BOOL rv =>
    match zipMapExcept (boolOpExcept op) lv rv with
    | .error e => .error e
    | .ok res => .ok (.BOOL res)
  | _, _ => .error "Missmatched operation types"

/-- ASCII model of Rust's Unicode `to_uppercase` / `to_lowercase` (the table
data in every claim is ASCII). -/
def asciiUpperByte (b : Nat) : Nat := if 97 ≤ b ∧ b ≤ 122 then b - 32 else b

def asciiLowerByte (b : Nat) : Nat := if 65 ≤ b ∧ b ≤ 90 then b + 32 else b

/-- `Executor::evaluate_function` (src/executor.rs lines 313-356). -/
def evaluateFunction : FunctionName → List ColumnData → Except String ColumnData
  | .Concat, [l, r] =>
    match l, r with
    | .STR lv, .STR rv => .ok (.STR (List.zipWith (· ++ ·) lv rv))
    | _, _ => .error "Concat requires (String, String)"
  | .Strlen, [arg] =>
    match arg with
    | .STR v => .ok (.INT64 (v.map fun s => (s.length : Int)))
    | _ => .error "Strln requires (String)"
  | .Upper, [arg] =>
    match arg with
    | .STR v => .ok (.STR (v.map fun s => s.map asciiUpperByte))
    | _ => .error "Upper requires (String)"
  | .Lower, [arg] =>
    match arg with
    | .STR v => .ok (.STR (v.map fun s => s.map asciiLowerByte))
    | _ => .error "Lower requires (String)"
  | _, _ => .error "Wrong number of arguments"

/-- `Executor::evaluate_unary_expression` (src/executor.rs lines 451-467). -/
def evaluateUnaryExpression : Operator → ColumnData → Except String ColumnData
  | .Minus, .INT64 v => .ok (.INT64 (v.map fun x => wrap64 (-x)))
  | .Not, .BOOL v => .ok (.BOOL (v.map not))
  | _, _ => .error "Mismatched operation type"

/-- `Executor::evaluate_expression` (src/executor.rs lines 238-311).  The
memo vector `expressions_results` is consulted but — exactly as in the
source — never written, so it is threaded read-only.  `fuel` models the Rust
call stack: planner-produced plans refer to children by strictly smaller
ids, so a fuel of one more than the expression count never runs out. -/
def evaluateExpression (exprs : List FlatExpression)
    (working : List (String × ColumnData)) (rowCount : Nat)
    (cache : List (Option ColumnData)) :
    Nat → Nat → Except String ColumnData
  | 0, _ => .error "recursion fuel exhausted"
  | fuel + 1, exprId =>
    match cache.getD exprId none with
    | some res => .ok res
    | none =>
      match exprs.get? exprId with
      | none => .error "expression id out of bounds"
      | some e =>
        match e with
        | .Ref colName =>
          match working.lookup colName with
          | some d => .ok d
          | none => .error "Column name does not exist in execution plan"
        | .Literal l =>
          match l with
          | .i64 v => .ok (.INT64 (List.replicate rowCount v))
          | .str v => .ok (.STR (List.replicate rowCount v))
          | .bool v => .ok (.BOOL (List.replicate rowCount v))
        | .Function fname argIds =>
          match listMapExcept
              (evaluateExpression exprs working rowCount cache fuel) argIds with
          | .error e => .error e
          | .ok args => evaluateFunction fname args
        | .Binary lid op rid =>
          match evaluateExpression exprs working rowCount cache fuel lid with
          | .error e => .error e
          | .ok lres =>
            match evaluateExpression exprs working rowCount cache fuel rid with
            | .error e => .error e
            | .ok rres => evaluateBinaryExpression op lres rres
        | .Unary op cid =>
          match evaluateExpression exprs working rowCount cache fuel cid with
          | .error e => .error e
          | .ok res => evaluateUnaryExpression op res

/-- `Vec::swap` (in-bounds in every `apply_mask` call; out of bounds would
panic in Rust and is a no-op here). -/
def listSwap (l : List α) (i j : Nat) : List α :=
  match l.get? i, l.get? j with
  | some vi, some vj => (l.set i vj).set j vi
  | _, _ => l

/-- `Executor::apply_mask` (src/executor.rs lines 469-480): the in-place
stable swap-compaction loop.  The first argument counts the remaining loop
iterations (`read_idx` runs over `0..data.len()`). -/
def applyMaskGo (mask : List Bool) : Nat → List α → Nat → Nat → List α × Nat
  | 0, data, _, keep => (data, keep)
  | fuel + 1, data, read, keep =>
    if read < data.length then
      if mask.getD read false then
        applyMaskGo mask fuel
          (if read ≠ keep then listSwap data read keep else data) (read + 1) (keep + 1)
      else applyMaskGo mask fuel data (read + 1) keep
    else (data, keep)

def applyMask (data : List α) (mask : List Bool) : List α :=
  ((applyMaskGo mask data.length data 0 0).1).take
    (applyMaskGo mask data.length data 0 0).2

def maskColumn (mask : List Bool) : ColumnData → ColumnData
  | .STR raw => .STR (applyMask raw mask)
  | .INT64 raw => .INT64 (applyMask raw mask)
  | .BOOL raw => .BOOL (applyMask raw mask)

/-- One sort-key comparison chain of `row_indices.sort_by` (src/executor.rs
lines 183-203); non-ascending keys reverse the per-key ordering, ties fall
through to the next key. -/
def sortComparator (cols : List ColumnData) :
    List OrderByExpression → Nat → Nat → Ordering
  | [], _, _ => .eq
  | sort :: rest, a, b =>
    let ord :=
      match cols.getD sort.column_index (.INT64 []) with
      | .INT64 v => cmpInt (v.getD a 0) (v.getD b 0)
      | .STR v => cmpRStr (v.getD a []) (v.getD b [])
      | .BOOL v => cmpBool (v.getD a false) (v.getD b false)
    if ord ≠ .eq then (if sort.asscending then ord else ord.swap)
    else sortComparator cols rest a b

/-- A stable sort (Rust `slice::sort_by` is stable; insertion sort realises
the same specification). -/
def insertOrdered (cmp : Nat → Nat → Ordering) (x : Nat) : List Nat → List Nat
  | [] => [x]
  | y :: ys => if cmp x y = .gt then y :: insertOrdered cmp x ys else x :: y :: ys

def insertionSort (cmp : Nat → Nat → Ordering) : List Nat → List Nat
  | [] => []
  | x :: xs => insertOrdered cmp x (insertionSort cmp xs)

/-- The gather of the materialisation step (`vec[idx]` is in bounds for all
indices the pipeline produces). -/
def gatherColumn (indices : List Nat) : ColumnData → ColumnData
  | .INT64 v => .INT64 (indices.map fun i => v.getD i 0)
  | .STR v => .STR (indices.map fun i => v.getD i [])
  | .BOOL v => .BOOL (indices.map fun i => v.getD i false)

/-- The working-columns construction: clone each mapped column's payload. -/
def buildWorkingColumns (tbl : RTable) :
    List (String × Nat) → Except String (List (String × ColumnData))
  | [] => .ok []
  | (n, i) :: rest =>
    match tbl.columns.get? i with
    | none => .error "column index out of bounds"
    | some col =>
      match buildWorkingColumns tbl rest with
      | .error e => .error e
      | .ok ws => .ok ((n, col.data) :: ws)

/-- `Executor::execude_plan` (src/executor.rs lines 109-236): working
columns, filter + mask compaction, projection, stable sort, limit,
materialisation. -/
def executePlan (select_plan : SelectPlan) (tables : List (String × RTable)) :
    Except String (List ColumnData × Nat) :=
  match (match select_plan.table_id with
         | some tid =>
           match tables.lookup tid with
           | none => Except.error "Table not found during execution"
           | some tbl =>
             match buildWorkingColumns tbl select_plan.column_indexes_map with
             | .error e => .error e
             | .ok ws => .ok (ws, tbl.num_rows)
         | none => .ok ([], 0)) with
  | .error e => .error e
  | .ok (working0, rowCount0) =>
    match ((match select_plan.filter_expression with
      | some fid =>
        match evaluateExpression select_plan.expressions_map working0 rowCount0
            (List.replicate select_plan.expressions_map.length none)
            (select_plan.expressions_map.length + 1) fid with
        | .error e => .error e
        | .ok filterRes =>
          match filterRes with
          | .BOOL mask =>
            .ok (working0.map (fun p => (p.1, maskColumn mask p.2)), mask.count true)
          | _ => .error "Where clause did not evaluate correctly"
      | none => .ok (working0, rowCount0)) :
      Except String (List (String × ColumnData) × Nat)) with
    | .error e => .error e
    | .ok (working, rowCount1) =>
      match listMapExcept
          (evaluateExpression select_plan.expressions_map working rowCount1
            (List.replicate select_plan.expressions_map.length none)
            (select_plan.expressions_map.length + 1))
          select_plan.column_expressions with
      | .error e => .error e
      | .ok evaluatedColumns =>
        let rowIndices1 :=
          if select_plan.sorts.isEmpty then List.range rowCount1
          else insertionSort (sortComparator evaluatedColumns select_plan.sorts)
            (List.range rowCount1)
        let final :=
          match select_plan.limit with
          | some limit =>
            if limit < rowIndices1.length then (rowIndices1.take limit, limit)
            else (rowIndices1, rowCount1)
          | none => (rowIndices1, rowCount1)
        .ok (evaluatedColumns.map (gatherColumn final.1), final.2)

/-- The seed table: `(i64 a = [1,2,3,4,5], string b = ["x","yy","zzz","w","q"])`. -/
def c2Table : RTable :=
  ⟨5, [⟨"a", .INT64 [1, 2, 3, 4, 5]⟩,
       ⟨"b", .STR [[120], [121, 121], [122, 122, 122], [119], [113]]⟩]⟩

/-- The plan the planner produces for projection `[a, b]`, filter `a > 2`,
sort by projection column 0 descending, limit 2: flat expressions
`[Ref a, Ref b, Literal 2, Binary(0 > 2)]`, projections `[0, 1]`,
filter id `3`. -/
def c2Plan : SelectPlan :=
  ⟨some "t1",
   [("a", 0), ("b", 1)],
   [.Ref "a", .Ref "b", .Literal (.i64 2), .Binary 0 .GreaterThan 2],
   [0, 1],
   some 3,
   [⟨0, false⟩],
   some 2⟩

/-- C2: executing the Select plan with projection `[a, b]`, filter `a > 2`,
sort by projection column 0 descending and limit 2 over the seed table
produces `a = [5, 4]`, `b = ["q", "w"]`, in that row order. -/
theorem c2_select_filter_sort_limit :
    executePlan c2Plan [("t1", c2Table)]
      = .ok ([.INT64 [5, 4], .STR [[113], [119]]], 2) := by
  decide

/-! ## COPY from CSV (`src/executor.rs` lines 482-616 and 698-734)

The file open and CSV reader are boundary I/O; the model receives the parsed
record matrix (`records`) directly, exactly the value the source computes at
line 493.  Errors distinguish Rust `Err` returns (`err`) from panics
(`panic`). -/

inductive ExecError where
  | err (msg : String)
  | panic (msg : String)
deriving DecidableEq, Repr

/-- Empty shadow buffer of the same variant as a target column. -/
def shadowFor : ColumnData → ColumnData
  | .STR _ => .STR []
  | .INT64 _ => .INT64 []
  | .BOOL _ => .BOOL []

/-- ASCII model of the whitespace `str::trim` strips. -/
def isAsciiWhitespaceByte (b : Nat) : Bool := b = 32 || b = 9 || b = 10 || b = 13

def trimBytes (s : List Nat) : List Nat :=
  ((s.dropWhile isAsciiWhitespaceByte).reverse.dropWhile isAsciiWhitespaceByte).reverse

def digitsToNat : List Nat → Option Nat
  | [] => some 0
  | b :: rest =>
    if 48 ≤ b ∧ b ≤ 57 then
      match digitsToNat rest with
      | some n => some ((b - 48) * 10 ^ rest.length + n)
      | none => none
    else none

/-- `str::parse::<i64>` on trimmed ASCII text: optional sign, at least one
decimal digit, in-range. -/
def parseI64 (s : List Nat) : Option Int :=
  match s with
  | [] => none
  | b :: rest =>
    let digits := if b = 45 ∨ b = 43 then rest else s
    let neg := b = 45
    match digits with
    | [] => none
    | _ =>
      match digitsToNat digits with
      | none => none
      | some n =>
        let v : Int := if neg then -(n : Int) else (n : Int)
        if isI64 v then some v else none

/-- `str::parse::<bool>`: exactly "true" or "false". -/
def parseBoolBytes (s : List Nat) : Option Bool :=
  if s = [116, 114, 117, 101] then some true
  else if s = [102, 97, 108, 115, 101] then some false
  else none

/-- Parse one CSV field into a shadow column by its target type (the source's
BOOL error message also says "Expected INT64" — a copy-paste kept as is). -/
def pushField : ColumnData → RStr → Except ExecError ColumnData
  | .INT64 vec, raw =>
    match parseI64 (trimBytes raw) with
    | some v => .ok (.INT64 (vec ++ [v]))
    | none => .error (.err "Type Error: Expected INT64")
  | .STR vec, raw => .ok (.STR (vec ++ [raw]))
  | .BOOL vec, raw =>
    match parseBoolBytes (trimBytes raw) with
    | some v => .ok (.BOOL (vec ++ [v]))
    | none => .error (.err "Type Error: Expected INT64")

/-- Replace the first binding of a key in an association list (the
`get_mut` + push update of a shadow column). -/
def assocSet : List (String × α) → String → α → List (String × α)
  | [], _, _ => []
  | (k, v) :: rest, key, nv =>
    if k = key then (key, nv) :: rest else (k, v) :: assocSet rest key nv

def updateShadow (shadow : List (String × ColumnData)) (colName : String)
    (raw : RStr) : Except ExecError (List (String × ColumnData)) :=
  match shadow.lookup colName with
  | none => .error (.panic "unwrap on missing shadow column")
  | some col =>
    match pushField col raw with
    | .error e => .error e
    | .ok col' => .ok (assocSet shadow colName col')

/-- The inner `for (i, col_name) in csv_to_table_map.iter().enumerate()`
loop; `record[i]` is the source's panicking index. -/
def processFields (record : List RStr) :
    List String → Nat → List (String × ColumnData) →
    Except ExecError (List (String × ColumnData))
  | [], _, shadow => .ok shadow
  | colName :: names, i, shadow =>
    match record.get? i with
    | none => .error (.panic "index out of bounds: record")
    | some raw =>
      match updateShadow shadow colName raw with
      | .error e => .error e
      | .ok shadow' => processFields record names (i + 1) shadow'

/-- The outer `for (row_idx, record) in records.iter().enumerate()` loop. -/
def processRecords (csvWidth : Nat) (tableMap : List String) :
    List (List RStr) → List (String × ColumnData) →
    Except ExecError (List (String × ColumnData))
  | [], shadow => .ok shadow
  | record :: rest, shadow =>
    if record.length ≠ csvWidth then .error (.err "Row length mismatch")
    else
      match processFields record tableMap 0 shadow with
      | .error e => .error e
      | .ok shadow' => processRecords csvWidth tableMap rest shadow'

/-- The CSV-to-table column mapping resolution (src/executor.rs 537-575). -/
def resolveMapping (shadow : List (String × ColumnData))
    (originalNames : List String) (csvWidth : Nat) :
    Option (List String) → Except ExecError (List String)
  | some mapNames =>
    if mapNames.length ≠ shadow.length then
      .error (.err "Invalid Mapping: wrong number of columns")
    else if csvWidth < mapNames.length then
      .error (.err "CSV too narrow")
    else
      match mapNames.find? (fun n => (shadow.lookup n).isNone) with
      | some _ => .error (.err "Mapping references column which does not exist in table")
      | none => .ok mapNames
  | none =>
    if csvWidth ≠ shadow.length then
      .error (.err "Mismatch: column counts must match")
    else .ok originalNames

/-- The parse phase of `Executor::copy_from_csv` (src/executor.rs lines
482-616, after the file is read): build the shadow buffers, read the CSV
width from `records[0]` — before any emptiness check — resolve the mapping,
then parse every record into the shadow buffers.  Returns the filled shadow
columns and the record count. -/
def copyParseCsv (table : RTable) (records : List (List RStr))
    (mapping : Option (List String)) :
    Except ExecError (List (String × ColumnData) × Nat) :=
  let shadow := table.columns.map fun col => (col.name, shadowFor col.data)
  let originalNames := table.columns.map (·.name)
  match records.get? 0 with
  | none => .error (.panic "index out of bounds: records is empty")
  | some first =>
    match resolveMapping shadow originalNames first.length mapping with
    | .error e => .error e
    | .ok tableMap =>
      match processRecords first.length tableMap records shadow with
      | .error e => .error e
      | .ok shadow' => .ok (shadow', records.length)

/-- C10: `copy_from_csv` reads `records[0]` to determine the CSV width
before checking that any records exist, so for a CSV with zero data records
the index access is out of bounds (the empty-CSV error branch is missing) —
for every table and mapping the function hits the panicking access. -/
theorem c10_copy_empty_csv_panics (table : RTable)
    (mapping : Option (List String)) :
    copyParseCsv table [] mapping
      = .error (.panic "index out of bounds: records is empty") := rfl

/-! ## The COPY append step (`src/executor.rs` lines 698-734) -/

/-- The `unwrap_or` default when a column has no shadow buffer: a column of
`num_rows` zeros / empty strings / `false`s. -/
def defaultNewData (col : ColumnData) (numRows : Nat) : ColumnData :=
  match col with
  | .INT64 _ => .INT64 (List.replicate numRows 0)
  | .STR _ => .STR (List.replicate numRows [])
  | .BOOL _ => .BOOL (List.replicate numRows false)

/-- `existing.append(new)` for matching variants, the type-mismatch abort
otherwise. -/
def dataAppend : ColumnData → ColumnData → Option ColumnData
  | .INT64 a, .INT64 b => some (.INT64 (a ++ b))
  | .STR a, .STR b => some (.STR (a ++ b))
  | .BOOL a, .BOOL b => some (.BOOL (a ++ b))
  | _, _ => none

/-- `HashMap::remove`: the removed value (first binding) and the remaining
map. -/
def removeAssoc : List (String × α) → String → Option α × List (String × α)
  | [], _ => (none, [])
  | (k, v) :: rest, key =>
    if k = key then (some v, rest)
    else
      let r := removeAssoc rest key
      (r.1, (k, v) :: r.2)

/-- The `for col in &mut table.columns` loop of the append step: take the
column's shadow buffer out of the map (or the padded default), append it. -/
def copyAppendGo (numRows : Nat) :
    List RColumn → List (String × ColumnData) → Except String (List RColumn)
  | [], _ => .ok []
  | col :: cols, shadow =>
    let r := removeAssoc shadow col.name
    match dataAppend col.data (r.1.getD (defaultNewData col.data numRows)) with
    | none => .error "Columns types mismatched"
    | some d =>
      match copyAppendGo numRows cols r.2 with
      | .error e => .error e
      | .ok rest => .ok (⟨col.name, d⟩ :: rest)

/-- The append step of `Executor::copy_from_csv`: extend every column in
place by its shadow buffer, then `table.num_rows += num_rows`. -/
def copyAppendStep (table : RTable) (shadow : List (String × ColumnData))
    (numRows : Nat) : Except String RTable :=
  match copyAppendGo numRows table.columns shadow with
  | .error e => .error e
  | .ok cols => .ok ⟨table.num_rows + numRows, cols⟩

/-- The shadow buffer a column receives: its entry in the shadow map, or the
padded default. -/
def shadowOrDefault (shadow : List (String × ColumnData)) (name : String)
    (old : ColumnData) (numRows : Nat) : ColumnData :=
  (shadow.lookup name).getD (defaultNewData old numRows)

theorem removeAssoc_fst (shadow : List (String × α)) (key : String) :
    (removeAssoc shadow key).1 = shadow.lookup key := by
  induction shadow with
  | nil => rfl
  | cons p rest ih =>
    obtain ⟨k, v⟩ := p
    simp only [removeAssoc, List.lookup]
    by_cases hk : k = key
    · rw [if_pos hk, hk]
      simp
    · rw [if_neg hk]
      have : (key == k) = false := by
        simp only [beq_eq_false_iff_ne, ne_eq]
        exact fun he => hk he.symm
      rw [this]
      exact ih

theorem removeAssoc_snd_lookup_ne {y key : String} (hne : y ≠ key)
    (shadow : List (String × α)) :
    ((removeAssoc shadow key).2).lookup y = shadow.lookup y := by
  induction shadow with
  | nil => rfl
  | cons p rest ih =>
    obtain ⟨k, v⟩ := p
    simp only [removeAssoc, List.lookup]
    by_cases hk : k = key
    · rw [if_pos hk]
      have : (y == k) = false := by
        simp only [beq_eq_false_iff_ne, ne_eq]
        exact fun he => hne (he.trans hk)
      simp only [List.lookup, this]
    · rw [if_neg hk]
      simp only [List.lookup]
      cases hbeq : y == k with
      | true => rfl
      | false => exact ih

theorem forall2_mem_imp {α β : Type} {R S : α → β → Prop} :
    ∀ {l1 : List α} {l2 : List β}, List.Forall₂ R l1 l2 →
    (∀ a ∈ l1, ∀ b ∈ l2, R a b → S a b) → List.Forall₂ S l1 l2 := by
  intro l1 l2 h
  induction h with
  | nil => intro _; exact List.Forall₂.nil
  | cons hab htail ih =>
    intro himp
    exact List.Forall₂.cons
      (himp _ (List.mem_cons_self _ _) _ (List.mem_cons_self _ _) hab)
      (ih fun a ha b hb hr =>
        himp a (List.mem_cons_of_mem _ ha) b (List.mem_cons_of_mem _ hb) hr)

theorem copyAppendGo_spec {numRows : Nat} :
    ∀ (cols : List RColumn) (shadow : List (String × ColumnData))
      (res : List RColumn),
    copyAppendGo numRows cols shadow = .ok res →
    (cols.map (·.name)).Nodup →
    List.Forall₂ (fun c c' => c'.name = c.name ∧
      dataAppend c.data (shadowOrDefault shadow c.name c.data numRows)
        = some c'.data) cols res := by
  intro cols
  induction cols with
  | nil =>
    intro shadow res h _
    simp only [copyAppendGo, Except.ok.injEq] at h
    subst h
    exact List.Forall₂.nil
  | cons col cols ih =>
    intro shadow res h hnodup
    simp only [copyAppendGo] at h
    cases hda : dataAppend col.data
        ((removeAssoc shadow col.name).1.getD
          (defaultNewData col.data numRows)) with
    | none => rw [hda] at h; exact absurd h (by simp)
    | some d =>
      rw [hda] at h
      cases hgo : copyAppendGo numRows cols (removeAssoc shadow col.name).2 with
      | error e => rw [hgo] at h; exact absurd h (by simp)
      | ok rest =>
        rw [hgo] at h
        simp only [Except.ok.injEq] at h
        subst h
        simp only [List.map_cons, List.nodup_cons] at hnodup
        obtain ⟨hnotmem, hnodup'⟩ := hnodup
        refine List.Forall₂.cons ⟨rfl, ?_⟩ ?_
        · rw [← hda]
          congr 1
          unfold shadowOrDefault
          rw [removeAssoc_fst]
        · have htail := ih (removeAssoc shadow col.name).2 rest hgo hnodup'
          refine forall2_mem_imp htail ?_
          intro c hc c' hc' hrel
          refine ⟨hrel.1, ?_⟩
          rw [← hrel.2]
          congr 1
          unfold shadowOrDefault
          rw [removeAssoc_snd_lookup_ne]
          intro he
          exact hnotmem (he ▸ List.mem_map_of_mem (·.name) hc)

/-- C5: a successful COPY append step appends the shadow buffer of each
target column after the existing values — the pre-COPY prefix of every
column is unchanged — and `num_rows` increases by exactly the number of
appended CSV records; the replacement semantics (`num_rows = new_rows`) are
not used. -/
theorem c5_copy_appends (table : RTable) (shadow : List (String × ColumnData))
    (n : Nat) (t' : RTable) (h : copyAppendStep table shadow n = .ok t')
    (hnodup : (table.columns.map (·.name)).Nodup) :
    t'.num_rows = table.num_rows + n ∧
    List.Forall₂ (fun c c' => c'.name = c.name ∧
      dataAppend c.data (shadowOrDefault shadow c.name c.data n)
        = some c'.data) table.columns t'.columns := by
  unfold copyAppendStep at h
  cases hgo : copyAppendGo n table.columns shadow with
  | error e => rw [hgo] at h; exact absurd h (by simp)
  | ok cols =>
    rw [hgo] at h
    simp only [Except.ok.injEq] at h
    subst h
    exact ⟨rfl, copyAppendGo_spec table.columns shadow cols hgo hnodup⟩

/-- Witness for C5: appending shadow `a = [8, 9]` (2 records) to the table
`(a = [7], num_rows = 1)`. -/
theorem c5_copy_appends_witness :
    (RTable.mk 3 [⟨"a", .INT64 [7, 8, 9]⟩]).num_rows
        = (RTable.mk 1 [⟨"a", .INT64 [7]⟩]).num_rows + 2 ∧
    List.Forall₂ (fun c c' => c'.name = c.name ∧
      dataAppend c.data
          (shadowOrDefault [("a", .INT64 [8, 9])] c.name c.data 2)
        = some c'.data)
      (RTable.mk 1 [⟨"a", .INT64 [7]⟩]).columns
      (RTable.mk 3 [⟨"a", .INT64 [7, 8, 9]⟩]).columns :=
  c5_copy_appends ⟨1, [⟨"a", .INT64 [7]⟩]⟩ [("a", .INT64 [8, 9])] 2
    ⟨3, [⟨"a", .INT64 [7, 8, 9]⟩]⟩ (by decide) (by decide)

/-! ## Metastore (`src/metastore.rs`)

Hash maps become association lists; hash sets become duplicate-free lists
(`HashSet::insert` adds only when absent, `HashSet::remove` drops the
element).  `Uuid::new_v4` is nondeterministic at the boundary, so the fresh
query id is a parameter.  Error messages drop the source's apostrophes. -/

structure TableMetaData where
  name : String
  table : RTable
  table_file : String
deriving DecidableEq, Repr

structure MsQueryResult where
  table_id : String
deriving DecidableEq, Repr

inductive QueryStatus where
  | Created
  | Planning
  | Running
  | Completed
  | Failed
deriving DecidableEq, Repr

structure MsSelectQuery where
  table_id : String
  table_name : String
deriving DecidableEq, Repr

structure MsCopyQuery where
  table_id : String
  table_name : String
  source_filepath : String
  destination_columns : Option (List String)
  does_csv_contain_header : Bool
deriving DecidableEq, Repr

inductive MsQueryDefinition where
  | Select (q : MsSelectQuery)
  | Copy (q : MsCopyQuery)
deriving DecidableEq, Repr

structure MsQueryError where
  message : String
  context : Option String
deriving DecidableEq, Repr

structure MsQuery where
  status : QueryStatus
  definition : MsQueryDefinition
  result : Option (List MsQueryResult)
  errors : Option (List MsQueryError)
deriving DecidableEq, Repr

structure Metastore where
  scheduled_for_deletion : List String
  tables : List (String × TableMetaData)
  tables_name_id : List (String × String)
  table_accesses : List (String × List String)
  queries : List (String × MsQuery)
  results : List (String × String)
deriving DecidableEq, Repr

inductive MetastoreError where
  | tableAccessError (msg : String)
  | tableCreationError (msgs : List String)
  | tableDeletionError (msg : String)
  | queryAccessError (msg : String)
  | queryCreationError (msgs : List String)
  | queryResultAccessError (msg : String)
  | queryErrorAccessError (msg : String)
  | panicNone (msg : String)
deriving DecidableEq, Repr

/-- A table's reader set (`table_accesses` entry, empty when absent). -/
def setOf (accs : List (String × List String)) (t : String) : List String :=
  (accs.lookup t).getD []

def accessSetOf (ms : Metastore) (tid : String) : List String :=
  setOf ms.table_accesses tid

/-- `table_accesses.entry(tid).or_insert_with(HashSet::new).insert(qid)`. -/
def accessInsert : List (String × List String) → String → String →
    List (String × List String)
  | [], tid, qid => [(tid, [qid])]
  | (k, s) :: rest, tid, qid =>
    if k = tid then (k, if qid ∈ s then s else s ++ [qid]) :: rest
    else (k, s) :: accessInsert rest tid qid

/-- `Metastore::create_select_query` (src/metastore.rs lines 239-271):
resolve the target by name through `tables_name_id` — with no
`scheduled_for_deletion` consultation — register the fresh query id in the
target's reader set and insert the query with status CREATED. -/
def createSelectQuery (ms : Metastore) (freshId : String)
    (table_name : Option String) : Except MetastoreError (String × Metastore) :=
  match table_name with
  | none => .error (.queryCreationError ["Missing table name"])
  | some name =>
    match ms.tables_name_id.lookup name with
    | none => .error (.queryCreationError ["There is no table with that name"])
    | some table_id =>
      .ok (freshId,
        { ms with
          table_accesses := accessInsert ms.table_accesses table_id freshId,
          queries := ms.queries ++
            [(freshId, ⟨.Created, .Select ⟨table_id, name⟩, none, none⟩)] })

/-- One element of the wire `QueryResultInner.columns` union (i64 list or
string list). -/
inductive QueryResultColumn where
  | intColumn (raw : List Int)
  | strColumn (raw : List RStr)
deriving DecidableEq, Repr

structure QueryResultInner where
  row_count : Int
  columns : List QueryResultColumn
deriving DecidableEq, Repr

/-- `u64 as i32` (the `table.get_num_rows() as i32` cast). -/
def castUsizeI32 (n : Nat) : Int :=
  if n % 2 ^ 32 < 2 ^ 31 then ((n % 2 ^ 32 : Nat) : Int)
  else ((n % 2 ^ 32 : Nat) : Int) - 2 ^ 32

/-- The per-column truncation of a result row block.  The source's match
covers only the INT64 and STR column variants; a BOOL payload has no arm. -/
def buildResultColumns (rowCount : Int) :
    List RColumn → Except MetastoreError (List QueryResultColumn)
  | [] => .ok []
  | col :: cols =>
    match (match col.data with
      | .INT64 raw => Except.ok (QueryResultColumn.intColumn
          (raw.take (castI32Usize rowCount)))
      | .STR raw => Except.ok (QueryResultColumn.strColumn
          (raw.take (castI32Usize rowCount)))
      | .BOOL _ => Except.error
          (MetastoreError.panicNone "ColumnData variant without a match arm")) with
    | .error e => .error e
    | .ok c =>
      match buildResultColumns rowCount cols with
      | .error e => .error e
      | .ok cs => .ok (c :: cs)

def buildResultInner (tbl : RTable) (row_limit : Option Int) :
    Except MetastoreError QueryResultInner :=
  let row_count :=
    match row_limit with
    | some limit => min (castUsizeI32 tbl.num_rows) limit
    | none => castUsizeI32 tbl.num_rows
  match buildResultColumns row_count tbl.columns with
  | .error e => .error e
  | .ok cols => .ok ⟨row_count, cols⟩

/-- The result-assembly loop of `get_query_result_flush`; the source calls
`self.tables.get(id).unwrap()`, whose panic on a missing table is the
`panicNone` error. -/
def buildAllInners (ms : Metastore) (row_limit : Option Int) :
    List String → Except MetastoreError (List QueryResultInner)
  | [] => .ok []
  | tid :: tids =>
    match ms.tables.lookup tid with
    | none => .error (.panicNone "unwrap: result table missing")
    | some md =>
      match buildResultInner md.table row_limit with
      | .error e => .error e
      | .ok inner =>
        match buildAllInners ms row_limit tids with
        | .error e => .error e
        | .ok rest => .ok (inner :: rest)

/-- `if let Some(set) = table_accesses.get_mut(id) { set.remove(&query_id) }`. -/
def removeQidFrom : List (String × List String) → String → String →
    List (String × List String)
  | [], _, _ => []
  | (k, s) :: rest, tid, qid =>
    (if k = tid then (k, s.filter fun q => q != qid) else (k, s))
      :: removeQidFrom rest tid qid

def removeQidFromAll (accs : List (String × List String)) (tids : List String)
    (qid : String) : List (String × List String) :=
  tids.foldl (fun a tid => removeQidFrom a tid qid) accs

/-- `Metastore::get_query_result_flush` (src/metastore.rs lines 371-433):
assemble the (row-limited) result blocks, then remove the query id from the
reader set of each result table.  Nothing else in the metastore state is
touched. -/
def getQueryResultFlush (ms : Metastore) (query_id : String)
    (row_limit : Option Int) :
    Except MetastoreError (List QueryResultInner × Metastore) :=
  match ms.queries.lookup query_id with
  | none => .error (.queryAccessError "Could not find a query of given ID")
  | some query =>
    match query.result with
    | none => .error (.queryResultAccessError "Result for this query is not available")
    | some result =>
      match buildAllInners ms row_limit (result.map (·.table_id)) with
      | .error e => .error e
      | .ok r =>
        .ok (r, { ms with
          table_accesses :=
            removeQidFromAll ms.table_accesses (result.map (·.table_id)) query_id })

theorem setOf_removeQidFrom (accs : List (String × List String))
    (tid qid t : String) :
    setOf (removeQidFrom accs tid qid) t
      = if t = tid then (setOf accs t).filter (fun q => q != qid)
        else setOf accs t := by
  induction accs with
  | nil =>
    simp only [removeQidFrom]
    split <;> rfl
  | cons p rest ih =>
    obtain ⟨k, s⟩ := p
    simp only [removeQidFrom]
    by_cases hk : k = tid
    · rw [if_pos hk]
      by_cases ht : t = k
      · have hb : (t == k) = true := by simp [ht]
        simp only [setOf, List.lookup, hb, Option.getD_some]
        rw [if_pos (ht.trans hk)]
      · have hb : (t == k) = false := by simp [ht]
        simp only [setOf, List.lookup, hb]
        exact ih
    · rw [if_neg hk]
      by_cases ht : t = k
      · have hb : (t == k) = true := by simp [ht]
        simp only [setOf, List.lookup, hb, Option.getD_some]
        rw [if_neg fun he => hk (ht.symm.trans he)]
      · have hb : (t == k) = false := by simp [ht]
        simp only [setOf, List.lookup, hb]
        exact ih

theorem setOf_removeQidFromAll (tids : List String) :
    ∀ (accs : List (String × List String)) (qid t : String),
    setOf (removeQidFromAll accs tids qid) t
      = if t ∈ tids then (setOf accs t).filter (fun q => q != qid)
        else setOf accs t := by
  induction tids with
  | nil => intro accs qid t; simp [removeQidFromAll]
  | cons t0 ts ih =>
    intro accs qid t
    have hstep : removeQidFromAll accs (t0 :: ts) qid
        = removeQidFromAll (removeQidFrom accs t0 qid) ts qid := rfl
    rw [hstep, ih, setOf_removeQidFrom]
    have hidem : ∀ l : List String,
        ((l.filter fun q => q != qid).filter fun q => q != qid)
          = l.filter fun q => q != qid := by
      intro l
      rw [List.filter_filter]
      congr 1
      funext a
      exact Bool.and_self _
    by_cases h1 : t ∈ ts <;> by_cases h2 : t = t0 <;>
      simp [h1, h2, List.mem_cons, hidem]

/-- C6 (amended): a successful `get_query_result_flush` removes the query's
id from the reader set of each of its result tables and preserves every
other reader; it does not delete anything — the `tables` map,
`scheduled_for_deletion` set and `queries` map are unchanged even when a
result table's reader set becomes empty while scheduled for deletion. -/
theorem c6_amended_flush_releases (ms : Metastore) (qid : String)
    (limit : Option Int) (r : List QueryResultInner) (ms' : Metastore)
    (h : getQueryResultFlush ms qid limit = .ok (r, ms')) :
    ms'.tables = ms.tables ∧
    ms'.scheduled_for_deletion = ms.scheduled_for_deletion ∧
    ms'.queries = ms.queries ∧
    ms'.tables_name_id = ms.tables_name_id ∧
    (∃ query result', ms.queries.lookup qid = some query ∧
      query.result = some result' ∧
      (∀ res ∈ result', qid ∉ accessSetOf ms' res.table_id) ∧
      (∀ t q', q' ≠ qid → (q' ∈ accessSetOf ms' t ↔ q' ∈ accessSetOf ms t))) := by
  unfold getQueryResultFlush at h
  cases hq : ms.queries.lookup qid with
  | none => simp only [hq] at h; exact absurd h (by simp)
  | some query =>
    simp only [hq] at h
    cases hres : query.result with
    | none => simp only [hres] at h; exact absurd h (by simp)
    | some result =>
      simp only [hres] at h
      cases hb : buildAllInners ms limit (result.map (·.table_id)) with
      | error e => simp only [hb] at h; exact absurd h (by simp)
      | ok r0 =>
        simp only [hb] at h
        simp only [Except.ok.injEq, Prod.mk.injEq] at h
        obtain ⟨-, hms⟩ := h
        subst hms
        refine ⟨rfl, rfl, rfl, rfl, query, result, rfl, hres, ?_, ?_⟩
        · intro res hmem
          show qid ∉ setOf (removeQidFromAll ms.table_accesses
            (result.map (·.table_id)) qid) res.table_id
          rw [setOf_removeQidFromAll]
          rw [if_pos (List.mem_map_of_mem _ hmem)]
          intro hin
          have := List.of_mem_filter hin
          simp at this
        · intro t q' hne
          show q' ∈ setOf (removeQidFromAll ms.table_accesses
              (result.map (·.table_id)) qid) t ↔ q' ∈ accessSetOf ms t
          rw [setOf_removeQidFromAll]
          split
          · constructor
            · intro hin
              exact List.mem_of_mem_filter hin
            · intro hin
              exact List.mem_filter.mpr ⟨hin, by simp [hne]⟩
          · exact Iff.rfl

/-- A metastore holding one materialised query `q1` whose single result
table `t1` is scheduled for deletion and read only by `q1`. -/
def c6Ms : Metastore :=
  ⟨["t1"], [("t1", ⟨"res", ⟨0, []⟩, "tables/t1.isdb"⟩)], [],
   [("t1", ["q1"])],
   [("q1", ⟨.Completed, .Select ⟨"t0", "x"⟩, some [⟨"t1"⟩], none⟩)], []⟩

def c6MsAfter : Metastore :=
  ⟨["t1"], [("t1", ⟨"res", ⟨0, []⟩, "tables/t1.isdb"⟩)], [],
   [("t1", [])],
   [("q1", ⟨.Completed, .Select ⟨"t0", "x"⟩, some [⟨"t1"⟩], none⟩)], []⟩

/-- C6 counterexample: after flushing `q1`, table `t1`'s reader set is empty
and `t1` is scheduled for deletion, yet its in-memory catalog entry is still
present (and the flush performs no file removal at all) — the claimed
deletion does not happen. -/
theorem c6_counterexample :
    getQueryResultFlush c6Ms "q1" none = .ok ([⟨0, []⟩], c6MsAfter) ∧
    accessSetOf c6MsAfter "t1" = [] ∧
    "t1" ∈ c6MsAfter.scheduled_for_deletion ∧
    c6MsAfter.tables.lookup "t1" ≠ none := by
  refine ⟨by decide, by decide, by decide, by decide⟩

/-- Witness for the amended C6 at the concrete metastore `c6Ms`. -/
theorem c6_amended_flush_releases_witness :
    c6MsAfter.tables = c6Ms.tables ∧
    c6MsAfter.scheduled_for_deletion = c6Ms.scheduled_for_deletion ∧
    c6MsAfter.queries = c6Ms.queries ∧
    c6MsAfter.tables_name_id = c6Ms.tables_name_id ∧
    (∃ query result', c6Ms.queries.lookup "q1" = some query ∧
      query.result = some result' ∧
      (∀ res ∈ result', "q1" ∉ accessSetOf c6MsAfter res.table_id) ∧
      (∀ t q', q' ≠ "q1" →
        (q' ∈ accessSetOf c6MsAfter t ↔ q' ∈ accessSetOf c6Ms t))) :=
  c6_amended_flush_releases c6Ms "q1" none [⟨0, []⟩] c6MsAfter (by decide)

theorem accessInsert_mem (accs : List (String × List String)) (tid qid : String) :
    qid ∈ setOf (accessInsert accs tid qid) tid := by
  induction accs with
  | nil => simp [accessInsert, setOf, List.lookup]
  | cons p rest ih =>
    obtain ⟨k, s⟩ := p
    simp only [accessInsert]
    by_cases hk : k = tid
    · rw [if_pos hk]
      subst hk
      simp only [setOf, List.lookup, beq_self_eq_true]
      split
      · assumption
      · simp
    · rw [if_neg hk]
      have hbeq : (tid == k) = false := by
        simp only [beq_eq_false_iff_ne, ne_eq]
        exact fun he => hk he.symm
      simp only [setOf, List.lookup, hbeq]
      exact ih

/-- C8 (amended): `create_select_query` resolves the target name through
`tables_name_id` without consulting `scheduled_for_deletion`: for every
metastore whose name map sends `name` to a table id carrying the
soft-delete tombstone, submitting a select query for `name` succeeds —
the fresh query id is registered in the soft-deleted table's reader set and
a CREATED query against it is inserted — instead of failing with a
`QueryCreationError`.  (`create_copy_query` resolves the name the same way;
its additional source-file existence check is boundary I/O.) -/
theorem c8_amended_tombstone_ignored (ms : Metastore)
    (freshId name tid : String)
    (hlk : ms.tables_name_id.lookup name = some tid)
    (hsched : tid ∈ ms.scheduled_for_deletion) :
    ∃ ms', createSelectQuery ms freshId (some name) = .ok (freshId, ms') ∧
      freshId ∈ accessSetOf ms' tid ∧
      ms'.scheduled_for_deletion = ms.scheduled_for_deletion ∧
      (freshId, MsQuery.mk .Created (.Select ⟨tid, name⟩) none none)
        ∈ ms'.queries := by
  refine ⟨{ ms with
      table_accesses := accessInsert ms.table_accesses tid freshId,
      queries := ms.queries ++
        [(freshId, ⟨.Created, .Select ⟨tid, name⟩, none, none⟩)] }, ?_, ?_, rfl, ?_⟩
  · simp only [createSelectQuery, hlk]
  · exact accessInsert_mem ms.table_accesses tid freshId
  · exact List.mem_append_right _ (List.mem_singleton.mpr rfl)

/-- A metastore with one table `t1` named "foo" that is scheduled for
deletion (its name mapping is never cleaned up by `delete_table`). -/
def c8Ms : Metastore :=
  ⟨["t1"], [("t1", ⟨"foo", ⟨0, []⟩, "tables/t1.isdb"⟩)], [("foo", "t1")],
   [], [], []⟩

/-- C8 counterexample: `t1` is soft-deleted, yet `create_select_query`
naming it succeeds (no `QueryCreationError`), registering the new query as a
reader of the soft-deleted table. -/
theorem c8_counterexample :
    "t1" ∈ c8Ms.scheduled_for_deletion ∧
    c8Ms.tables_name_id.lookup "foo" = some "t1" ∧
    createSelectQuery c8Ms "q9" (some "foo")
      = .ok ("q9",
        ⟨["t1"], [("t1", ⟨"foo", ⟨0, []⟩, "tables/t1.isdb"⟩)], [("foo", "t1")],
         [("t1", ["q9"])],
         [("q9", ⟨.Created, .Select ⟨"t1", "foo"⟩, none, none⟩)], []⟩) := by
  refine ⟨by decide, by decide, by decide⟩

/-- Witness for the amended C8 at the concrete metastore `c8Ms`. -/
theorem c8_amended_tombstone_ignored_witness :
    ∃ ms', createSelectQuery c8Ms "q9" (some "foo") = .ok ("q9", ms') ∧
      "q9" ∈ accessSetOf ms' "t1" ∧
      ms'.scheduled_for_deletion = c8Ms.scheduled_for_deletion ∧
      ("q9", MsQuery.mk .Created (.Select ⟨"t1", "foo"⟩) none none)
        ∈ ms'.queries :=
  c8_amended_tombstone_ignored c8Ms "q9" "foo" "t1" (by decide) (by decide)

end Isdb
